import Mathlib

/-!
# go-openap: JSON-schema derivation and OpenAPI document assembly

A shallow embedding of `openapi.go` and the properties established about it.

Conventions of the embedding:

* A Go `string` is a Lean `String` (a sequence of Unicode scalar values), that
  is, Go strings are taken to be valid UTF-8, so `[]rune(s)` is `s.data`.
* A Go `map[K]V` is an association list with pairwise distinct keys, kept in
  order of first insertion (`GoMap`).  Go compares maps extensionally, so an
  equality of association lists entails the equality of the Go maps.
* A Go pointer or map that may be `nil` is an `Option`.
* `(T, error)` results are an `Outcome`: a returned value, a returned error
  with its message, or a run-time panic.
* The parts of the Go standard library that the code calls are embedded from
  the library's source; its Unicode tables beyond Latin-1 / ASCII are taken as
  a parameter (`UnicodeTables`).
* The `OpenAPIAPI` objects of a document live in a `Memory` and are referred to
  by address, so that an `Endpoint` and the document share the object that the
  endpoint points into; `Memory.deref` reads the document by value.
* `json.Marshal` is embedded, from the struct tags of the source, as a function
  to JSON values; the text of the values (quoting, escaping) is not modelled.
-/

namespace OpenAP

/-! ## Standard library: `reflect`, `unicode`, `strings` -/

/-- The kinds of `reflect.Kind`, in the order of the Go declaration. -/
inductive Kind where
  | Invalid | Bool | Int | Int8 | Int16 | Int32 | Int64
  | Uint | Uint8 | Uint16 | Uint32 | Uint64 | Uintptr
  | Float32 | Float64 | Complex64 | Complex128
  | Array | Chan | Func | Interface | Map | Ptr | Slice
  | String | Struct | UnsafePointer
  deriving DecidableEq, Repr

/-- The name `reflect.Kind.String` gives to a kind (table `kindNames`); this is
what the verb `%s` prints for a `reflect.Kind`. -/
def kindString : Kind → String
  | .Invalid => "invalid"
  | .Bool => "bool"
  | .Int => "int"
  | .Int8 => "int8"
  | .Int16 => "int16"
  | .Int32 => "int32"
  | .Int64 => "int64"
  | .Uint => "uint"
  | .Uint8 => "uint8"
  | .Uint16 => "uint16"
  | .Uint32 => "uint32"
  | .Uint64 => "uint64"
  | .Uintptr => "uintptr"
  | .Float32 => "float32"
  | .Float64 => "float64"
  | .Complex64 => "complex64"
  | .Complex128 => "complex128"
  | .Array => "array"
  | .Chan => "chan"
  | .Func => "func"
  | .Interface => "interface"
  | .Map => "map"
  | .Ptr => "ptr"
  | .Slice => "slice"
  | .String => "string"
  | .Struct => "struct"
  | .UnsafePointer => "unsafe.Pointer"

/-- A `reflect.StructField`, as far as the code reads it: the declared
identifier `Name`, the value `Tag.Get("json")` of the json key of its tag (the
empty string when the tag has no such key) and the field's type. -/
structure StructField (τ : Type) where
  Name : String
  Tag : String
  Typ : τ

/-- A `reflect.Type`, as far as the code reads it: its `Kind()` and, for a
struct, its fields `Field(0) .. Field(NumField()-1)` in declaration order.  The
field list of a type of another kind is never read. -/
inductive GoType where
  | mk (kind : Kind) (fields : List (StructField GoType))

/-- The result `st.Kind()`. -/
def GoType.Kind : GoType → Kind
  | .mk k _ => k

/-- The fields `st.Field(i)` for `i < st.NumField()`. -/
def GoType.Fields : GoType → List (StructField GoType)
  | .mk _ fs => fs

/-- The Unicode tables of package `unicode` that are not reproduced here:
`Upper r` says whether the range table `unicode.Upper` holds `r` (read for
`r > MaxLatin1` only), `Lower r` is `unicode.To(LowerCase, r)` (read for
`r > MaxASCII` only). -/
structure UnicodeTables where
  Upper : Char → Bool
  Lower : Char → Char

/-- The Latin-1 part of `unicode.IsUpper`: the entries of `properties` that are
`pLu`, namely `A`-`Z`, U+00C0-U+00D6 and U+00D8-U+00DE. -/
def latin1IsUpper (r : Char) : Bool :=
  (0x41 ≤ r.toNat && r.toNat ≤ 0x5A) || (0xC0 ≤ r.toNat && r.toNat ≤ 0xD6) ||
    (0xD8 ≤ r.toNat && r.toNat ≤ 0xDE)

/-- The function `unicode.IsUpper`: the `properties` table up to `MaxLatin1`,
the range table `Upper` beyond. -/
def unicodeIsUpper (U : UnicodeTables) (r : Char) : Bool :=
  if r.toNat ≤ 0xFF then latin1IsUpper r else U.Upper r

/-- The function `unicode.ToLower`: `A`-`Z` are shifted by `a - A`, other ASCII
runes are kept, and the case tables decide beyond `MaxASCII`. -/
def unicodeToLower (U : UnicodeTables) (r : Char) : Char :=
  if r.toNat ≤ 0x7F then
    (if 0x41 ≤ r.toNat ∧ r.toNat ≤ 0x5A then Char.ofNat (r.toNat + 0x20) else r)
  else U.Lower r

/-- The function `strings.ToLower`: every rune is mapped by `unicode.ToLower`
(the ASCII fast path of the library computes the same string). -/
def stringsToLower (U : UnicodeTables) (s : String) : String :=
  ⟨s.data.map (unicodeToLower U)⟩

/-- The runes before the first `,` and, when there is a `,`, the runes after
it: the cut that `strings.SplitN(s, ",", 2)` makes at `strings.Index(s, ",")`. -/
def cutComma : List Char → List Char × Option (List Char)
  | [] => ([], none)
  | c :: cs =>
    if c = ',' then ([], some cs)
    else ((cutComma cs).1.cons c, (cutComma cs).2)

/-- The call `strings.SplitN(s, ",", 2)`: at most two substrings, the second
one being the unsplit remainder; the empty string gives one empty substring. -/
def stringsSplitN2 (s : String) : List String :=
  match cutComma s.data with
  | (a, none) => [⟨a⟩]
  | (a, some b) => [⟨a⟩, ⟨b⟩]

/-! ## Go values: maps and results -/

/-- A Go map: an association list with distinct keys, in order of first
insertion. -/
abbrev GoMap (κ ν : Type) := List (κ × ν)

/-- The read `m[k]` with the comma-ok flag: `none` when `k` is not a key. -/
def GoMap.get {κ ν : Type} [DecidableEq κ] : GoMap κ ν → κ → Option ν
  | [], _ => none
  | (k', v) :: rest, k => if k' = k then some v else GoMap.get rest k

/-- The assignment `m[k] = v`: an existing entry is overwritten, a new key is
added. -/
def GoMap.set {κ ν : Type} [DecidableEq κ] : GoMap κ ν → κ → ν → GoMap κ ν
  | [], k, v => [(k, v)]
  | (k', v') :: rest, k, v =>
    if k' = k then (k, v) :: rest else (k', v') :: GoMap.set rest k v

/-- The keys of a map. -/
def GoMap.keys {κ ν : Type} (m : GoMap κ ν) : List κ := m.map Prod.fst

/-- What a call returning `(T, error)` does: it returns a value and a nil
error, or a nil value and an error with the given message, or it panics. -/
inductive Outcome (α : Type) where
  | ok (a : α)
  | err (msg : String)
  | panic

/-! ## `JSONSchemaDescriptor` and `getJSONSchemaFromType` -/

/-- The struct `JSONSchemaDescriptor`.  `Enum` is a slice and `Properties` a
map, both `nil` when `none`; the entries of `Properties` are pointers, `nil`
when `none`. -/
inductive JSONSchemaDescriptor where
  | mk (Typ : String) (Enum : Option (List String)) (Minimum Maximum : Int)
      (Properties : Option (List (String × Option JSONSchemaDescriptor)))

/-- The field `Type`. -/
def JSONSchemaDescriptor.Typ : JSONSchemaDescriptor → String
  | .mk t _ _ _ _ => t

/-- The field `Enum`. -/
def JSONSchemaDescriptor.Enum : JSONSchemaDescriptor → Option (List String)
  | .mk _ e _ _ _ => e

/-- The field `Minimum`. -/
def JSONSchemaDescriptor.Minimum : JSONSchemaDescriptor → Int
  | .mk _ _ lo _ _ => lo

/-- The field `Maximum`. -/
def JSONSchemaDescriptor.Maximum : JSONSchemaDescriptor → Int
  | .mk _ _ _ hi _ => hi

/-- The field `Properties`. -/
def JSONSchemaDescriptor.Properties :
    JSONSchemaDescriptor → Option (GoMap String (Option JSONSchemaDescriptor))
  | .mk _ _ _ _ p => p

/-- The serialized name of a field (lines 85-91): the first of the substrings
of `strings.SplitN(tag.Get("json"), ",", 2)` when there is one and it is not
empty, the declared identifier otherwise. -/
def fieldName {τ : Type} (field : StructField τ) : String :=
  match stringsSplitN2 field.Tag with
  | [] => field.Name
  | p :: _ => if p ≠ "" then p else field.Name

/-- The read `[]rune(fieldName)[0]`, `none` when the index is out of range. -/
def firstRune (s : String) : Option Char := s.data.head?

mutual
/-- The function `getJSONSchemaFromType`. -/
def getJSONSchemaFromType (U : UnicodeTables) : GoType → Outcome JSONSchemaDescriptor
  | .mk k fields =>
    match k with
    | .Bool => .ok (.mk "bool" none 0 0 none)
    | .Int8 => .ok (.mk "integer" none (-128) 127 none)
    | .Int16 => .ok (.mk "integer" none (-32768) 32767 none)
    | .Int => .ok (.mk "integer" none (-2147483648) 2147483647 none)
    | .Int32 => .ok (.mk "integer" none (-2147483648) 2147483647 none)
    | .Int64 => .ok (.mk "integer" none (-9223372036854775808) 9223372036854775807 none)
    | .Uint8 => .ok (.mk "integer" none 0 255 none)
    | .Uint16 => .ok (.mk "integer" none 0 65535 none)
    | .Uint => .ok (.mk "integer" none 0 4294967295 none)
    | .Uint32 => .ok (.mk "integer" none 0 4294967295 none)
    | .Uint64 => .ok (.mk "integer" none 0 0 none)
    | .Float32 => .ok (.mk "string" none 0 0 none)
    | .Float64 => .ok (.mk "string" none 0 0 none)
    | .String => .ok (.mk "string" none 0 0 none)
    | .Struct =>
      match structFields U fields [] with
      | .ok props => .ok (.mk "object" none 0 0 (some props))
      | .err e => .err e
      | .panic => .panic
    | k => .err ("implement me! " ++ kindString k)
/-- The loop of the `reflect.Struct` case over the fields not yet visited,
`props` being the map built so far. -/
def structFields (U : UnicodeTables) : List (StructField GoType) →
    GoMap String (Option JSONSchemaDescriptor) →
    Outcome (GoMap String (Option JSONSchemaDescriptor))
  | [], props => .ok props
  | field :: rest, props =>
    match firstRune (fieldName field) with
    | none => .panic
    | some r =>
      if !unicodeIsUpper U r then structFields U rest props
      else
        match getJSONSchemaFromType U field.Typ with
        | .ok f => structFields U rest (GoMap.set props (fieldName field) (some f))
        | .err e => .err e
        | .panic => .panic
end

/-- The function `GetJSONSchema`.  The argument is the `interface{}` value,
given by its dynamic type; `none` is the nil interface, whose `reflect.TypeOf`
is the nil `reflect.Type`, on which `Kind()` panics. -/
def GetJSONSchema (U : UnicodeTables) (s : Option GoType) : Outcome JSONSchemaDescriptor :=
  match s with
  | none => .panic
  | some st => getJSONSchemaFromType U st

/-- The kinds with a rule in `getJSONSchemaFromType`: bool, the ten integer
kinds, the two float kinds, string and struct. -/
def ruleKinds : List Kind :=
  [.Bool, .Int, .Int8, .Int16, .Int32, .Int64, .Uint, .Uint8, .Uint16, .Uint32, .Uint64,
    .Float32, .Float64, .String, .Struct]

/-- Whether the first rune of the serialized name of a field is an upper-case
letter (false when the name has no rune). -/
def included {τ : Type} (U : UnicodeTables) (field : StructField τ) : Bool :=
  match firstRune (fieldName field) with
  | some r => unicodeIsUpper U r
  | none => false


/-- The part of a json tag before its first comma (the whole tag when it has no
comma). -/
def tagName (tag : String) : String := ⟨tag.data.takeWhile (fun c => c ≠ ',')⟩

/-- Unicode tables that hold no rune: with them only the Latin-1 letters are
upper case and only the ASCII letters have a lower case. -/
def latin1Tables : UnicodeTables := ⟨fun _ => false, fun r => r⟩

/-- The type `SimpleStructure` of the tests `simple structure` and
`TestAddJSONEndpoint`: `struct { Foo string; Bar uint8 }`. -/
def SimpleStructure : GoType :=
  .mk .Struct [⟨"Foo", "", .mk .String []⟩, ⟨"Bar", "", .mk .Uint8 []⟩]

/-- The type `NestedStructure` of the test `neasting structure`:
`struct { Foo1 string; Bar1 uint8; ignored uint16 }`. -/
def NestedStructure : GoType :=
  .mk .Struct [⟨"Foo1", "", .mk .String []⟩, ⟨"Bar1", "", .mk .Uint8 []⟩,
    ⟨"ignored", "", .mk .Uint16 []⟩]

/-- The type `SimpleStructure` of the test `neasting structure`: `struct { Foo
string (tagged json:"TheName"); Bar NestedStructure; ignored uint16 }`. -/
def NestingStructure : GoType :=
  .mk .Struct [⟨"Foo", "TheName", .mk .String []⟩, ⟨"Bar", "", NestedStructure⟩,
    ⟨"ignored", "", .mk .Uint16 []⟩]

mutual
/-- The keys of every properties map of a descriptor, at every nesting level. -/
def JSONSchemaDescriptor.allKeys : JSONSchemaDescriptor → List String
  | .mk _ _ _ _ none => []
  | .mk _ _ _ _ (some props) => entriesKeys props
/-- The keys of the entries of a properties map together with the keys at
every nesting level below them. -/
def entriesKeys : List (String × Option JSONSchemaDescriptor) → List String
  | [] => []
  | (k, none) :: rest => k :: entriesKeys rest
  | (k, some d) :: rest => k :: (d.allKeys ++ entriesKeys rest)
end

mutual
/-- A descriptor together with every descriptor nested in its properties, at
every level. -/
def JSONSchemaDescriptor.nested : JSONSchemaDescriptor → List JSONSchemaDescriptor
  | .mk t e lo hi none => [.mk t e lo hi none]
  | .mk t e lo hi (some props) => .mk t e lo hi (some props) :: entriesNested props
/-- The descriptors of the entries of a properties map, each with the
descriptors nested in it. -/
def entriesNested : List (String × Option JSONSchemaDescriptor) → List JSONSchemaDescriptor
  | [] => []
  | (_, none) :: rest => entriesNested rest
  | (_, some d) :: rest => d.nested ++ entriesNested rest
end

/-- The invariant of the data model as the specification words it: a bound is
set (not zero) if and only if the type is "integer", and the properties are set
(not nil) if and only if the type is "object". -/
def JSONSchemaDescriptor.SpecInvariant (d : JSONSchemaDescriptor) : Prop :=
  ((d.Minimum ≠ 0 ∨ d.Maximum ≠ 0) ↔ d.Typ = "integer") ∧
  (d.Properties ≠ none ↔ d.Typ = "object")

/-- The invariant that the mapping keeps: a bound that is not zero comes with
the type "integer"; a descriptor of type "integer" has a maximum that is not
zero, unless it is the descriptor of uint64, whose bounds are both zero; and
the properties are not nil if and only if the type is "object". -/
def JSONSchemaDescriptor.Invariant (d : JSONSchemaDescriptor) : Prop :=
  ((d.Minimum ≠ 0 ∨ d.Maximum ≠ 0) → d.Typ = "integer") ∧
  (d.Typ = "integer" → d.Maximum ≠ 0 ∨ d = .mk "integer" none 0 0 none) ∧
  (d.Properties ≠ none ↔ d.Typ = "object")

mutual
/-- Whether every declared field identifier of a type is non-empty, at every
nesting level of struct fields. -/
def GoType.namesNonEmpty : GoType → Bool
  | .mk .Struct fields => fieldsNamesNonEmpty fields
  | .mk _ _ => true
/-- Whether the fields have a non-empty declared identifier and types whose
declared field identifiers are non-empty. -/
def fieldsNamesNonEmpty : List (StructField GoType) → Bool
  | [] => true
  | field :: rest =>
    (field.Name != "") && field.Typ.namesNonEmpty && fieldsNamesNonEmpty rest
end

/-! ## The OpenAPI document -/

/-- The struct `InfoSpec`. -/
structure InfoSpec where
  Title : String
  Description : String
  Version : String

/-- The struct `OpenAPIServer`. -/
structure OpenAPIServer where
  URL : String
  Description : String

/-- The struct `OpenAPIResponseContent`; `Schema` is a pointer. -/
structure OpenAPIResponseContent where
  Schema : Option JSONSchemaDescriptor

/-- The struct `OpenAPIResponse`; the entries of `Content` are pointers. -/
structure OpenAPIResponse where
  Description : String
  Content : Option (GoMap String (Option OpenAPIResponseContent))

/-- The struct `OpenAPIAPI`; the entries of `Responses` are pointers. -/
structure OpenAPIAPI where
  Summary : String
  Description : String
  Responses : Option (GoMap Int (Option OpenAPIResponse))

/-- The struct `QueryDescriptor`, which has no field. -/
structure QueryDescriptor where

/-- The type `OpenAPIPaths`, a map from path to a map from method to
`*OpenAPIAPI`; `ρ` is what stands for a non-nil `*OpenAPIAPI`: the address of
the object in `Memory`, or the object itself in a document read by value. -/
abbrev OpenAPIPaths (ρ : Type) := GoMap String (Option (GoMap String (Option ρ)))

/-- The struct `OpenAPISpec`.  `Info` is a pointer, `Servers` a slice of
pointers, `Paths` a pointer to a map that may itself be nil. -/
structure OpenAPISpec (ρ : Type) where
  OpenAPI : String
  Info : Option InfoSpec
  Servers : Option (List (Option OpenAPIServer))
  Paths : Option (Option (OpenAPIPaths ρ))

/-- The document `*oas` in memory: the `OpenAPISpec` object, whose paths hold
the addresses of `OpenAPIAPI` objects, and the `OpenAPIAPI` objects allocated
so far, the object of address `p` being `apis[p]`.  The objects below an
`OpenAPIAPI` are each reached through one pointer only and are held by
value. -/
structure Memory where
  oas : OpenAPISpec Nat
  apis : List OpenAPIAPI

/-- The struct `Endpoint`: `responses` points to the field `Responses` of an
`OpenAPIAPI` object and is given by the address of that object; `none` is the
nil pointer of the zero `Endpoint`. -/
structure Endpoint where
  responses : Option Nat

/-- The document as Go compares it (`reflect.DeepEqual` follows the pointers):
every address of an `OpenAPIAPI` object is replaced by the object. -/
def Memory.deref (m : Memory) : OpenAPISpec OpenAPIAPI :=
  { OpenAPI := m.oas.OpenAPI
    Info := m.oas.Info
    Servers := m.oas.Servers
    Paths := m.oas.Paths.map (Option.map (List.map
      (fun (e : String × Option (GoMap String (Option Nat))) =>
        (e.1, e.2.map (List.map (fun (a : String × Option Nat) =>
          (a.1, a.2.bind (fun p => m.apis.get? p)))))))) }

/-- The function `New`: no object of type `OpenAPIAPI` is allocated yet. -/
def New (title version : String) : Memory :=
  { oas := { OpenAPI := "3.0.0"
             Info := some { Title := title, Description := "", Version := version }
             Servers := none
             Paths := none }
    apis := [] }

/-- The method `AddJSONEndpoint`, on the memory holding `*oas`; `none` is a
panic (an assignment to an entry of a nil map; the model also stops there on an
address outside the memory, which Go does not have).  Lines 177-179 allocate the
path map when `oas.Paths` is nil; lines 180-182 give the path an empty method
map when it has none; lines 183-185 allocate a fresh `OpenAPIAPI` when the
method has none; lines 186-188 give the operation an empty response map when
it has none; line 190 returns the address of its field `Responses`. -/
def AddJSONEndpoint (U : UnicodeTables) (m : Memory) (method path : String)
    (_query : Option QueryDescriptor) : Option (Memory × Endpoint) :=
  let method := stringsToLower U method
  let paths? : Option (OpenAPIPaths Nat) :=
    match m.oas.Paths with
    | none => some []
    | some ps => ps
  match paths? with
  | none => none
  | some paths =>
    let methods : GoMap String (Option Nat) :=
      match GoMap.get paths path with
      | some (some ms) => ms
      | _ => []
    let alloc : List OpenAPIAPI × Nat :=
      match GoMap.get methods method with
      | some (some p) => (m.apis, p)
      | _ => (m.apis ++ [{ Summary := "", Description := "", Responses := none }], m.apis.length)
    match alloc.1.get? alloc.2 with
    | none => none
    | some api =>
      let apis : List OpenAPIAPI :=
        match api.Responses with
        | none => alloc.1.set alloc.2 { api with Responses := some [] }
        | some _ => alloc.1
      some ({ oas := { m.oas with
                Paths := some (some (GoMap.set paths path
                  (some (GoMap.set methods method (some alloc.2))))) }
              apis := apis },
            { responses := some alloc.2 })

/-- The method `AddResponse`, on the memory the endpoint points into; `none`
is a panic (nil pointer, or assignment to an entry of a nil map; the model also
stops there on an address outside the memory).  Lines
200-202 allocate the response of the status code when it has none; lines
203-205 give it an empty content map when it has none; lines 207-209 store
the content of "application/json". -/
def AddResponse (m : Memory) (endpoint : Endpoint) (statusCode : Int)
    (returnBody : Option JSONSchemaDescriptor) : Option Memory :=
  match endpoint.responses with
  | none => none
  | some p =>
    match m.apis.get? p with
    | none => none
    | some api =>
      match api.Responses with
      | none => none
      | some responses =>
        let response : OpenAPIResponse :=
          match GoMap.get responses statusCode with
          | some (some r) => r
          | _ => { Description := "", Content := none }
        let content : GoMap String (Option OpenAPIResponseContent) :=
          match response.Content with
          | some c => c
          | none => []
        let response' : OpenAPIResponse :=
          { response with
            Content := some (GoMap.set content "application/json" (some { Schema := returnBody })) }
        some { m with
          apis := m.apis.set p
            { api with Responses := some (GoMap.set responses statusCode (some response')) } }

/-! ## Reading a document -/

/-- The path map `*oas.Paths` as it is read: empty when `oas.Paths` is nil or
points to a nil map. -/
def OpenAPISpec.pathMap {ρ : Type} (oas : OpenAPISpec ρ) : OpenAPIPaths ρ :=
  match oas.Paths with
  | some (some paths) => paths
  | _ => []

/-- The method map `(*oas.Paths)[path]` as it is read: empty when the path has
no entry or a nil one. -/
def OpenAPISpec.methodMap {ρ : Type} (oas : OpenAPISpec ρ) (path : String) :
    GoMap String (Option ρ) :=
  match GoMap.get oas.pathMap path with
  | some (some methods) => methods
  | _ => []

/-- The operation `(*oas.Paths)[path][method]` of a document: `none` when the
entry is missing or nil. -/
def OpenAPISpec.operation {ρ : Type} (oas : OpenAPISpec ρ) (path method : String) : Option ρ :=
  match GoMap.get (oas.methodMap path) method with
  | some (some op) => some op
  | _ => none

/-- The response `api.Responses[statusCode]` of an operation: `none` when the
entry is missing or nil. -/
def OpenAPIAPI.response (api : OpenAPIAPI) (statusCode : Int) : Option OpenAPIResponse :=
  match api.Responses with
  | none => none
  | some responses =>
    match GoMap.get responses statusCode with
    | some (some r) => some r
    | _ => none

/-- The content `response.Content[mediaType]` of a response: `none` when the
entry is missing or nil. -/
def OpenAPIResponse.content (response : OpenAPIResponse) (mediaType : String) :
    Option OpenAPIResponseContent :=
  match response.Content with
  | none => none
  | some content =>
    match GoMap.get content mediaType with
    | some (some c) => some c
    | _ => none

/-- The schema stored for a status code under "application/json", when the
operation has that response and the response that content. -/
def OpenAPIAPI.jsonSchema (api : OpenAPIAPI) (statusCode : Int) :
    Option (Option JSONSchemaDescriptor) :=
  ((api.response statusCode).bind (fun r => r.content "application/json")).map
    (fun c => c.Schema)

/-- A memory that holds a document as the operations of this package build it:
`oas.Paths` does not point to a nil map, every address stored in the paths is
the address of an allocated `OpenAPIAPI` object, and no two entries of the
paths share an object. -/
structure Memory.WellFormed (m : Memory) : Prop where
  pathsNotNilMap : m.oas.Paths ≠ some none
  allocated : ∀ path method p, m.oas.operation path method = some p → p < m.apis.length
  unshared : ∀ path method path' method' p, m.oas.operation path method = some p →
    m.oas.operation path' method' = some p → path = path' ∧ method = method'

/-- The endpoint points to the field `Responses` of an allocated `OpenAPIAPI`
object whose response map is not nil, as every endpoint that `AddJSONEndpoint`
returns does. -/
def Endpoint.Bound (endpoint : Endpoint) (m : Memory) : Prop :=
  ∃ p api, endpoint.responses = some p ∧ m.apis.get? p = some api ∧ api.Responses ≠ none

/-- Lines 183-185 of `AddJSONEndpoint` as they act on the memory: the objects
after the step and the address of the operation of the path and (lower-cased)
method, a fresh object being allocated when the entry is missing or nil. -/
def allocOperation (m : Memory) (path method : String) : List OpenAPIAPI × Nat :=
  match GoMap.get (m.oas.methodMap path) method with
  | some (some p) => (m.apis, p)
  | _ => (m.apis ++ [{ Summary := "", Description := "", Responses := none }], m.apis.length)

/-- Lines 200-202 of `AddResponse`: the response of the status code, a fresh
one when the entry is missing or nil. -/
def responseOrNew (responses : GoMap Int (Option OpenAPIResponse)) (statusCode : Int) :
    OpenAPIResponse :=
  match GoMap.get responses statusCode with
  | some (some r) => r
  | _ => { Description := "", Content := none }

/-- Lines 203-205 of `AddResponse`: the content map of the response, a fresh
one when it is nil. -/
def contentOrNew (response : OpenAPIResponse) : GoMap String (Option OpenAPIResponseContent) :=
  match response.Content with
  | some c => c
  | none => []

/-- Lines 200-209 of `AddResponse` as they act on the response map of the
operation: the response of the status code gets the schema as its content of
"application/json". -/
def attachResponse (responses : GoMap Int (Option OpenAPIResponse)) (statusCode : Int)
    (returnBody : Option JSONSchemaDescriptor) : GoMap Int (Option OpenAPIResponse) :=
  GoMap.set responses statusCode (some
    { Description := (responseOrNew responses statusCode).Description
      Content := some (GoMap.set (contentOrNew (responseOrNew responses statusCode))
        "application/json" (some { Schema := returnBody })) })

/-- The memories that this package builds: the memory of `New`, and the memory
after a call of `AddJSONEndpoint` or `AddResponse` on such a memory. -/
inductive Memory.Built (U : UnicodeTables) : Memory → Prop where
  | new (title version : String) : Memory.Built U (New title version)
  | addJSONEndpoint (m : Memory) (method path : String) (q : Option QueryDescriptor)
      (m₁ : Memory) (e : Endpoint) (hm : Memory.Built U m)
      (h : AddJSONEndpoint U m method path q = some (m₁, e)) : Memory.Built U m₁
  | addResponse (m : Memory) (e : Endpoint) (statusCode : Int)
      (returnBody : Option JSONSchemaDescriptor) (m₁ : Memory) (hm : Memory.Built U m)
      (h : AddResponse m e statusCode returnBody = some m₁) : Memory.Built U m₁

/-! ## Serialization with `encoding/json` -/

/-- A JSON value as `json.Marshal` writes it; the members of an object are in
the order in which they are written. -/
inductive JSON where
  | null
  | string (s : String)
  | number (n : Int)
  | array (items : List JSON)
  | object (members : List (String × JSON))

/-- The decimal text of an integer, as `strconv.FormatInt(n, 10)` writes the key
of a `map[int]`. -/
def decimal : Int → String
  | Int.ofNat n => Nat.repr n
  | Int.negSucc n => "-" ++ Nat.repr (n + 1)

/-- The order of the runes of two strings, first difference first. -/
def runesLess : List Char → List Char → Bool
  | [], [] => false
  | [], _ :: _ => true
  | _ :: _, [] => false
  | a :: as, b :: bs =>
    if a.toNat < b.toNat then true
    else if b.toNat < a.toNat then false
    else runesLess as bs

/-- The order `a < b` of Go strings: the order of their bytes, which for UTF-8
is the order of their runes. -/
def stringLess (a b : String) : Bool := runesLess a.data b.data

/-- One step of the sort of the members of a map by key. -/
def insertMember (k : String) (v : JSON) : List (String × JSON) → List (String × JSON)
  | [] => [(k, v)]
  | (k', v') :: rest =>
    if stringLess k k' then (k, v) :: (k', v') :: rest else (k', v') :: insertMember k v rest

/-- The members of a map in the order of their keys: `json.Marshal` writes the
entries of a map sorted by key. -/
def sortMembers (members : List (String × JSON)) : List (String × JSON) :=
  members.foldr (fun e sorted => insertMember e.1 e.2 sorted) []

/-- A pointer as `json.Marshal` writes it: `null` when nil, else what it points
to. -/
def marshalPointer {ν : Type} (value : ν → JSON) : Option ν → JSON
  | none => .null
  | some v => value v

/-- A map as `json.Marshal` writes it: `null` when nil, else the object of its
entries sorted by key. -/
def marshalMap {κ ν : Type} (key : κ → String) (value : ν → JSON) :
    Option (GoMap κ ν) → JSON
  | none => .null
  | some m => .object (sortMembers (m.map (fun e => (key e.1, value e.2))))

/-- Whether a map has no entry (`len(m) == 0`), the test of `omitempty`. -/
def emptyMap {κ ν : Type} : Option (GoMap κ ν) → Bool
  | none => true
  | some m => m.isEmpty

mutual
/-- A `JSONSchemaDescriptor` as `json.Marshal` writes it, following the tags of
the struct: `type`, then `enum`, `minimum`, `maximum` and `properties`, each of
these four left out when empty or zero. -/
def JSONSchemaDescriptor.marshal : JSONSchemaDescriptor → JSON
  | .mk t e lo hi props => .object (
      [("type", .string t)] ++
      (match e with
        | none => []
        | some items =>
          if items.isEmpty then [] else [("enum", .array (items.map JSON.string))]) ++
      (if lo = 0 then [] else [("minimum", .number lo)]) ++
      (if hi = 0 then [] else [("maximum", .number hi)]) ++
      (match props with
        | none => []
        | some entries =>
          if entries.isEmpty then []
          else [("properties", .object (sortMembers (marshalEntries entries)))]))
/-- The entries of a properties map as members, a nil pointer being written
`null`. -/
def marshalEntries : List (String × Option JSONSchemaDescriptor) → List (String × JSON)
  | [] => []
  | (k, none) :: rest => (k, .null) :: marshalEntries rest
  | (k, some d) :: rest => (k, d.marshal) :: marshalEntries rest
end

/-- An `OpenAPIResponseContent` as `json.Marshal` writes it: `schema`, left out
when nil. -/
def OpenAPIResponseContent.marshal (c : OpenAPIResponseContent) : JSON :=
  .object (match c.Schema with
    | none => []
    | some d => [("schema", d.marshal)])

/-- An `OpenAPIResponse` as `json.Marshal` writes it: `description`, then
`content`, left out when empty. -/
def OpenAPIResponse.marshal (r : OpenAPIResponse) : JSON :=
  .object ([("description", .string r.Description)] ++
    (if emptyMap r.Content then []
      else [("content", marshalMap (fun k => k)
        (marshalPointer OpenAPIResponseContent.marshal) r.Content)]))

/-- An `OpenAPIAPI` as `json.Marshal` writes it: `summary`, left out when
empty, `description`, then `responses`, left out when empty, its status codes
written in decimal. -/
def OpenAPIAPI.marshal (api : OpenAPIAPI) : JSON :=
  .object ((if api.Summary = "" then [] else [("summary", .string api.Summary)]) ++
    [("description", .string api.Description)] ++
    (if emptyMap api.Responses then []
      else [("responses", marshalMap decimal
        (marshalPointer OpenAPIResponse.marshal) api.Responses)]))

/-- An `InfoSpec` as `json.Marshal` writes it: `title`, `description`, left out
when empty, and `version`. -/
def InfoSpec.marshal (info : InfoSpec) : JSON :=
  .object ([("title", .string info.Title)] ++
    (if info.Description = "" then [] else [("description", .string info.Description)]) ++
    [("version", .string info.Version)])

/-- An `OpenAPIServer` as `json.Marshal` writes it: `url` and `desciption`,
each left out when empty. -/
def OpenAPIServer.marshal (server : OpenAPIServer) : JSON :=
  .object ((if server.URL = "" then [] else [("url", .string server.URL)]) ++
    (if server.Description = "" then [] else [("desciption", .string server.Description)]))

/-- The document as `json.Marshal(oas)` writes it, the pointers to its
operations being followed: `openapi`, `info` (`null` when nil), `servers`, left
out when empty, and `paths`, left out when `oas.Paths` is nil. -/
def OpenAPISpec.marshal (oas : OpenAPISpec OpenAPIAPI) : JSON :=
  .object ([("openapi", .string oas.OpenAPI),
      ("info", marshalPointer InfoSpec.marshal oas.Info)] ++
    (match oas.Servers with
      | none => []
      | some servers =>
        if servers.isEmpty then []
        else [("servers", .array (servers.map (marshalPointer OpenAPIServer.marshal)))]) ++
    (match oas.Paths with
      | none => []
      | some paths =>
        [("paths", marshalMap (fun k => k)
          (marshalMap (fun k => k) (marshalPointer OpenAPIAPI.marshal)) paths)]))

/-! ## Lemmas on maps and on the field loop -/

theorem GoMap.get_set_self {κ ν : Type} [DecidableEq κ] (m : GoMap κ ν) (k : κ) (v : ν) :
    GoMap.get (GoMap.set m k v) k = some v := by
  induction m with
  | nil => simp [GoMap.set, GoMap.get]
  | cons p rest ih =>
    obtain ⟨k', v'⟩ := p
    by_cases h : k' = k
    · simp [GoMap.set, GoMap.get, h]
    · simp [GoMap.set, GoMap.get, h, ih]

theorem GoMap.get_set_ne {κ ν : Type} [DecidableEq κ] (m : GoMap κ ν) (k k' : κ) (v : ν)
    (h : k ≠ k') : GoMap.get (GoMap.set m k v) k' = GoMap.get m k' := by
  induction m with
  | nil => simp [GoMap.set, GoMap.get, h]
  | cons p rest ih =>
    obtain ⟨k₁, v₁⟩ := p
    by_cases h1 : k₁ = k
    · subst h1
      simp [GoMap.set, GoMap.get, h]
    · simp [GoMap.set, GoMap.get, h1, ih]

theorem GoMap.mem_keys_iff {κ ν : Type} [DecidableEq κ] (m : GoMap κ ν) (k : κ) :
    k ∈ GoMap.keys m ↔ ∃ v, GoMap.get m k = some v := by
  induction m with
  | nil => simp [GoMap.keys, GoMap.get]
  | cons p rest ih =>
    obtain ⟨k₁, v₁⟩ := p
    by_cases h1 : k₁ = k
    · subst h1
      simp [GoMap.keys, GoMap.get]
    · have h2 : ¬ k = k₁ := fun h => h1 h.symm
      have ih' : k ∈ List.map Prod.fst rest ↔ ∃ v, GoMap.get rest k = some v := ih
      simp only [GoMap.keys, List.map_cons, List.mem_cons, GoMap.get, h1, if_false, h2, false_or]
      exact ih'

theorem GoMap.mem_keys_set {κ ν : Type} [DecidableEq κ] (m : GoMap κ ν) (k k' : κ) (v : ν) :
    k' ∈ GoMap.keys (GoMap.set m k v) ↔ k' = k ∨ k' ∈ GoMap.keys m := by
  rw [GoMap.mem_keys_iff, GoMap.mem_keys_iff]
  by_cases h : k = k'
  · subst h
    simp [GoMap.get_set_self]
  · rw [GoMap.get_set_ne m k k' v h]
    have : ¬ k' = k := fun e => h e.symm
    simp [this]

theorem structFields_nil (U : UnicodeTables) (props : GoMap String (Option JSONSchemaDescriptor)) :
    structFields U [] props = .ok props := by
  simp [structFields]

theorem structFields_cons (U : UnicodeTables) (field : StructField GoType)
    (rest : List (StructField GoType)) (props : GoMap String (Option JSONSchemaDescriptor)) :
    structFields U (field :: rest) props =
      match firstRune (fieldName field) with
      | none => .panic
      | some r =>
        if !unicodeIsUpper U r then structFields U rest props
        else
          match getJSONSchemaFromType U field.Typ with
          | .ok f => structFields U rest (GoMap.set props (fieldName field) (some f))
          | .err e => .err e
          | .panic => .panic := by
  rw [structFields]

theorem getJSONSchemaFromType_struct_eq (U : UnicodeTables) (fields : List (StructField GoType)) :
    getJSONSchemaFromType U (.mk .Struct fields) =
      match structFields U fields [] with
      | .ok props => .ok (.mk "object" none 0 0 (some props))
      | .err e => .err e
      | .panic => .panic := by
  rw [getJSONSchemaFromType]

theorem structFields_cons_excluded (U : UnicodeTables) (field : StructField GoType)
    (rest : List (StructField GoType)) (props : GoMap String (Option JSONSchemaDescriptor))
    (hne : fieldName field ≠ "") (hex : included U field = false) :
    structFields U (field :: rest) props = structFields U rest props := by
  rw [structFields_cons]
  unfold included at hex
  cases hr : firstRune (fieldName field) with
  | none =>
    exfalso
    apply hne
    unfold firstRune at hr
    have hd : (fieldName field).data = [] := by
      cases hdat : (fieldName field).data with
      | nil => rfl
      | cons c cs => rw [hdat] at hr; simp at hr
    exact String.ext hd
  | some r =>
    rw [hr] at hex
    simp only at hex
    simp [hex]

theorem structFields_cons_included (U : UnicodeTables) (field : StructField GoType)
    (rest : List (StructField GoType)) (props : GoMap String (Option JSONSchemaDescriptor))
    (hin : included U field = true) :
    structFields U (field :: rest) props =
      match getJSONSchemaFromType U field.Typ with
      | .ok f => structFields U rest (GoMap.set props (fieldName field) (some f))
      | .err e => .err e
      | .panic => .panic := by
  rw [structFields_cons]
  unfold included at hin
  cases hr : firstRune (fieldName field) with
  | none => rw [hr] at hin; simp at hin
  | some r =>
    rw [hr] at hin
    simp only at hin
    simp [hin]

theorem structFields_cons_ok (U : UnicodeTables) (field : StructField GoType)
    (rest : List (StructField GoType)) (props props' : GoMap String (Option JSONSchemaDescriptor))
    (h : structFields U (field :: rest) props = .ok props') :
    (included U field = false ∧ structFields U rest props = .ok props') ∨
    (included U field = true ∧ ∃ d, getJSONSchemaFromType U field.Typ = .ok d ∧
      structFields U rest (GoMap.set props (fieldName field) (some d)) = .ok props') := by
  cases hin : included U field with
  | true =>
    right
    refine ⟨rfl, ?_⟩
    rw [structFields_cons_included U field rest props hin] at h
    cases hd : getJSONSchemaFromType U field.Typ with
    | ok d => rw [hd] at h; exact ⟨d, rfl, h⟩
    | err e => rw [hd] at h; simp at h
    | panic => rw [hd] at h; simp at h
  | false =>
    left
    refine ⟨rfl, ?_⟩
    by_cases hne : fieldName field = ""
    · rw [structFields_cons] at h
      have : firstRune (fieldName field) = none := by rw [hne]; rfl
      rw [this] at h
      simp at h
    · rw [structFields_cons_excluded U field rest props hne hin] at h
      exact h

theorem fieldName_ne_empty {τ : Type} (field : StructField τ) (h : field.Name ≠ "") :
    fieldName field ≠ "" := by
  unfold fieldName
  cases stringsSplitN2 field.Tag with
  | nil => exact h
  | cons p ps =>
    by_cases hp : p = ""
    · simp [hp, h]
    · simp [hp]

theorem structFields_succeeds (U : UnicodeTables) (fields : List (StructField GoType)) :
    ∀ props : GoMap String (Option JSONSchemaDescriptor),
    (∀ f ∈ fields, f.Name ≠ "") →
    (∀ f ∈ fields, included U f = true → ∃ d, getJSONSchemaFromType U f.Typ = .ok d) →
    ∃ props', structFields U fields props = .ok props' := by
  induction fields with
  | nil => intro props _ _; exact ⟨props, structFields_nil U props⟩
  | cons f rest ih =>
    intro props hn hok
    have hn' : ∀ g ∈ rest, g.Name ≠ "" := fun g hg => hn g (List.mem_cons_of_mem _ hg)
    have hok' : ∀ g ∈ rest, included U g = true → ∃ d, getJSONSchemaFromType U g.Typ = .ok d :=
      fun g hg => hok g (List.mem_cons_of_mem _ hg)
    cases hin : included U f with
    | false =>
      rw [structFields_cons_excluded U f rest props
        (fieldName_ne_empty f (hn f (List.mem_cons_self _ _))) hin]
      exact ih props hn' hok'
    | true =>
      obtain ⟨d, hd⟩ := hok f (List.mem_cons_self _ _) hin
      rw [structFields_cons_included U f rest props hin, hd]
      exact ih _ hn' hok'

theorem structFields_keys (U : UnicodeTables) (fields : List (StructField GoType)) :
    ∀ props props' : GoMap String (Option JSONSchemaDescriptor),
    structFields U fields props = .ok props' →
    ∀ k, k ∈ GoMap.keys props' ↔
      k ∈ GoMap.keys props ∨ ∃ f ∈ fields, included U f = true ∧ fieldName f = k := by
  induction fields with
  | nil =>
    intro props props' h k
    rw [structFields_nil] at h
    injection h with h
    subst h
    simp
  | cons f rest ih =>
    intro props props' h k
    rcases structFields_cons_ok U f rest props props' h with ⟨hex, h'⟩ | ⟨hin, d, _, h'⟩
    · rw [ih props props' h' k]
      constructor
      · rintro (h1 | ⟨g, hg, hgi, hgk⟩)
        · exact Or.inl h1
        · exact Or.inr ⟨g, List.mem_cons_of_mem _ hg, hgi, hgk⟩
      · rintro (h1 | ⟨g, hg, hgi, hgk⟩)
        · exact Or.inl h1
        · rcases List.mem_cons.mp hg with rfl | hg'
          · rw [hex] at hgi; exact absurd hgi (by simp)
          · exact Or.inr ⟨g, hg', hgi, hgk⟩
    · rw [ih _ props' h' k, GoMap.mem_keys_set]
      constructor
      · rintro ((h1 | h1) | ⟨g, hg, hgi, hgk⟩)
        · exact Or.inr ⟨f, List.mem_cons_self _ _, hin, h1.symm⟩
        · exact Or.inl h1
        · exact Or.inr ⟨g, List.mem_cons_of_mem _ hg, hgi, hgk⟩
      · rintro (h1 | ⟨g, hg, hgi, hgk⟩)
        · exact Or.inl (Or.inr h1)
        · rcases List.mem_cons.mp hg with rfl | hg'
          · exact Or.inl (Or.inl hgk.symm)
          · exact Or.inr ⟨g, hg', hgi, hgk⟩

theorem structFields_values (U : UnicodeTables) (fields : List (StructField GoType)) :
    ∀ props props' : GoMap String (Option JSONSchemaDescriptor),
    structFields U fields props = .ok props' →
    ∀ k v, GoMap.get props' k = some v →
      GoMap.get props k = some v ∨
      ∃ f ∈ fields, included U f = true ∧ fieldName f = k ∧
        ∃ d, v = some d ∧ getJSONSchemaFromType U f.Typ = .ok d := by
  induction fields with
  | nil =>
    intro props props' h k v hv
    rw [structFields_nil] at h
    injection h with h
    subst h
    exact Or.inl hv
  | cons f rest ih =>
    intro props props' h k v hv
    rcases structFields_cons_ok U f rest props props' h with ⟨_, h'⟩ | ⟨hin, d, hd, h'⟩
    · rcases ih props props' h' k v hv with h1 | ⟨g, hg, hgi, hgk, hgd⟩
      · exact Or.inl h1
      · exact Or.inr ⟨g, List.mem_cons_of_mem _ hg, hgi, hgk, hgd⟩
    · rcases ih _ props' h' k v hv with h1 | ⟨g, hg, hgi, hgk, hgd⟩
      · by_cases hk : fieldName f = k
        · subst hk
          rw [GoMap.get_set_self] at h1
          injection h1 with h1
          exact Or.inr ⟨f, List.mem_cons_self _ _, hin, rfl, d, h1.symm, hd⟩
        · rw [GoMap.get_set_ne _ _ _ _ hk] at h1
          exact Or.inl h1
      · exact Or.inr ⟨g, List.mem_cons_of_mem _ hg, hgi, hgk, hgd⟩

theorem structFields_frame (U : UnicodeTables) (fields : List (StructField GoType)) :
    ∀ props props' : GoMap String (Option JSONSchemaDescriptor),
    structFields U fields props = .ok props' →
    ∀ k, (∀ g ∈ fields, included U g = true → fieldName g ≠ k) →
      GoMap.get props' k = GoMap.get props k := by
  induction fields with
  | nil =>
    intro props props' h k _
    rw [structFields_nil] at h
    injection h with h
    subst h
    rfl
  | cons f rest ih =>
    intro props props' h k hk
    have hk' : ∀ g ∈ rest, included U g = true → fieldName g ≠ k :=
      fun g hg => hk g (List.mem_cons_of_mem _ hg)
    rcases structFields_cons_ok U f rest props props' h with ⟨_, h'⟩ | ⟨hin, d, _, h'⟩
    · exact ih props props' h' k hk'
    · rw [ih _ props' h' k hk']
      exact GoMap.get_set_ne _ _ _ _ (hk f (List.mem_cons_self _ _) hin)

theorem structFields_last (U : UnicodeTables) (pre : List (StructField GoType)) :
    ∀ (f : StructField GoType) (post : List (StructField GoType))
      (props props' : GoMap String (Option JSONSchemaDescriptor)),
    structFields U (pre ++ f :: post) props = .ok props' →
    included U f = true →
    (∀ g ∈ post, included U g = true → fieldName g ≠ fieldName f) →
    ∃ d, getJSONSchemaFromType U f.Typ = .ok d ∧
      GoMap.get props' (fieldName f) = some (some d) := by
  induction pre with
  | nil =>
    intro f post props props' h hin hpost
    rw [List.nil_append] at h
    rcases structFields_cons_ok U f post props props' h with ⟨hex, _⟩ | ⟨_, d, hd, h'⟩
    · rw [hin] at hex; exact absurd hex (by simp)
    · refine ⟨d, hd, ?_⟩
      rw [structFields_frame U post _ props' h' (fieldName f) hpost]
      exact GoMap.get_set_self _ _ _
  | cons g pre ih =>
    intro f post props props' h hin hpost
    rw [List.cons_append] at h
    rcases structFields_cons_ok U g (pre ++ f :: post) props props' h with ⟨_, h'⟩ | ⟨_, _, _, h'⟩
    · exact ih f post props props' h' hin hpost
    · exact ih f post _ props' h' hin hpost

theorem GoMap.keys_set_nodup {κ ν : Type} [DecidableEq κ] (m : GoMap κ ν) (k : κ) (v : ν)
    (h : (GoMap.keys m).Nodup) : (GoMap.keys (GoMap.set m k v)).Nodup := by
  induction m with
  | nil => simp [GoMap.set, GoMap.keys]
  | cons p rest ih =>
    obtain ⟨k₁, v₁⟩ := p
    have h' : k₁ ∉ GoMap.keys rest ∧ (GoMap.keys rest).Nodup := by
      simpa [GoMap.keys] using h
    by_cases h1 : k₁ = k
    · subst h1
      simpa [GoMap.set, GoMap.keys] using h
    · have hmem : k₁ ∉ GoMap.keys (GoMap.set rest k v) := by
        rw [GoMap.mem_keys_set]
        rintro (e | e)
        · exact h1 e
        · exact h'.1 e
      have hnd : (k₁ :: GoMap.keys (GoMap.set rest k v)).Nodup :=
        List.nodup_cons.mpr ⟨hmem, ih h'.2⟩
      simpa [GoMap.set, GoMap.keys, h1] using hnd

theorem structFields_nodup (U : UnicodeTables) (fields : List (StructField GoType)) :
    ∀ props props' : GoMap String (Option JSONSchemaDescriptor),
    structFields U fields props = .ok props' →
    (GoMap.keys props).Nodup → (GoMap.keys props').Nodup := by
  induction fields with
  | nil =>
    intro props props' h hnd
    rw [structFields_nil] at h
    injection h with h
    subst h
    exact hnd
  | cons f rest ih =>
    intro props props' h hnd
    rcases structFields_cons_ok U f rest props props' h with ⟨_, h'⟩ | ⟨_, d, _, h'⟩
    · exact ih props props' h' hnd
    · exact ih _ props' h' (GoMap.keys_set_nodup props _ _ hnd)

theorem getJSONSchemaFromType_struct_ok (U : UnicodeTables) (fields : List (StructField GoType))
    (d : JSONSchemaDescriptor) (h : getJSONSchemaFromType U (.mk .Struct fields) = .ok d) :
    ∃ props, structFields U fields [] = .ok props ∧ d = .mk "object" none 0 0 (some props) := by
  rw [getJSONSchemaFromType_struct_eq] at h
  cases hs : structFields U fields [] with
  | ok props =>
    rw [hs] at h
    injection h with h
    exact ⟨props, rfl, h.symm⟩
  | err e => rw [hs] at h; simp at h
  | panic => rw [hs] at h; simp at h

theorem included_iff {τ : Type} (U : UnicodeTables) (field : StructField τ) :
    included U field = true ↔
      ∃ r, firstRune (fieldName field) = some r ∧ unicodeIsUpper U r = true := by
  unfold included
  cases firstRune (fieldName field) with
  | none => simp
  | some r => simp

theorem cutComma_fst (cs : List Char) :
    (cutComma cs).1 = cs.takeWhile (fun c => c ≠ ',') := by
  induction cs with
  | nil => simp [cutComma]
  | cons c cs ih =>
    by_cases h : c = ','
    · simp [cutComma, h]
    · simp [cutComma, h, ih]

theorem stringsSplitN2_head (s : String) :
    ∃ rest, stringsSplitN2 s = tagName s :: rest := by
  unfold stringsSplitN2 tagName
  rw [← cutComma_fst]
  rcases hc : cutComma s.data with ⟨a, _ | b⟩
  · exact ⟨[], rfl⟩
  · exact ⟨[⟨b⟩], rfl⟩

theorem fieldName_eq_tagName {τ : Type} (field : StructField τ) :
    fieldName field = if tagName field.Tag ≠ "" then tagName field.Tag else field.Name := by
  obtain ⟨rest, h⟩ := stringsSplitN2_head field.Tag
  unfold fieldName
  rw [h]

theorem structFields_first_failure (U : UnicodeTables) (pre : List (StructField GoType)) :
    ∀ (f : StructField GoType) (post : List (StructField GoType))
      (props : GoMap String (Option JSONSchemaDescriptor)),
    (∀ g ∈ pre, g.Name ≠ "") →
    (∀ g ∈ pre, included U g = true → ∃ d, getJSONSchemaFromType U g.Typ = .ok d) →
    included U f = true →
    (∀ e, getJSONSchemaFromType U f.Typ = .err e →
      structFields U (pre ++ f :: post) props = .err e) ∧
    (getJSONSchemaFromType U f.Typ = .panic →
      structFields U (pre ++ f :: post) props = .panic) := by
  induction pre with
  | nil =>
    intro f post props _ _ hin
    rw [List.nil_append, structFields_cons_included U f post props hin]
    constructor
    · intro e he
      rw [he]
    · intro he
      rw [he]
  | cons g pre ih =>
    intro f post props hn hok hin
    have hn' : ∀ x ∈ pre, x.Name ≠ "" := fun x hx => hn x (List.mem_cons_of_mem _ hx)
    have hok' : ∀ x ∈ pre, included U x = true → ∃ d, getJSONSchemaFromType U x.Typ = .ok d :=
      fun x hx => hok x (List.mem_cons_of_mem _ hx)
    rw [List.cons_append]
    cases hgi : included U g with
    | false =>
      have hne := fieldName_ne_empty g (hn g (List.mem_cons_self _ _))
      rw [structFields_cons_excluded U g _ props hne hgi]
      exact ih f post props hn' hok' hin
    | true =>
      obtain ⟨d, hd⟩ := hok g (List.mem_cons_self _ _) hgi
      rw [structFields_cons_included U g _ props hgi, hd]
      exact ih f post _ hn' hok' hin

theorem entriesKeys_cons (k : String) (v : Option JSONSchemaDescriptor)
    (rest : List (String × Option JSONSchemaDescriptor)) (x : String) :
    x ∈ entriesKeys ((k, v) :: rest) ↔
      x = k ∨ (∃ d, v = some d ∧ x ∈ d.allKeys) ∨ x ∈ entriesKeys rest := by
  cases v with
  | none => simp [entriesKeys]
  | some d => simp [entriesKeys]

theorem entriesKeys_set (props : List (String × Option JSONSchemaDescriptor)) (k : String)
    (d : JSONSchemaDescriptor) (x : String)
    (hx : x ∈ entriesKeys (GoMap.set props k (some d))) :
    x = k ∨ x ∈ d.allKeys ∨ x ∈ entriesKeys props := by
  induction props with
  | nil =>
    have hx' : x ∈ entriesKeys [(k, some d)] := hx
    rw [entriesKeys_cons] at hx'
    rcases hx' with h | ⟨d', hd', h⟩ | h
    · exact Or.inl h
    · injection hd' with hd'
      subst hd'
      exact Or.inr (Or.inl h)
    · simp [entriesKeys] at h
  | cons p rest ih =>
    obtain ⟨k₁, v₁⟩ := p
    by_cases h1 : k₁ = k
    · subst h1
      have hx' : x ∈ entriesKeys ((k₁, some d) :: rest) := by
        simpa [GoMap.set] using hx
      rw [entriesKeys_cons] at hx'
      rcases hx' with h | ⟨d', hd', h⟩ | h
      · exact Or.inl h
      · injection hd' with hd'
        subst hd'
        exact Or.inr (Or.inl h)
      · exact Or.inr (Or.inr ((entriesKeys_cons k₁ v₁ rest x).mpr (Or.inr (Or.inr h))))
    · have hx' : x ∈ entriesKeys ((k₁, v₁) :: GoMap.set rest k (some d)) := by
        simpa [GoMap.set, h1] using hx
      rw [entriesKeys_cons] at hx'
      rcases hx' with h | h | h
      · exact Or.inr (Or.inr ((entriesKeys_cons k₁ v₁ rest x).mpr (Or.inl h)))
      · exact Or.inr (Or.inr ((entriesKeys_cons k₁ v₁ rest x).mpr (Or.inr (Or.inl h))))
      · rcases ih h with h | h | h
        · exact Or.inl h
        · exact Or.inr (Or.inl h)
        · exact Or.inr (Or.inr ((entriesKeys_cons k₁ v₁ rest x).mpr (Or.inr (Or.inr h))))

theorem getJSONSchemaFromType_scalar_allKeys (U : UnicodeTables) (k : Kind)
    (fields : List (StructField GoType)) (d : JSONSchemaDescriptor) (hk : k ≠ .Struct)
    (h : getJSONSchemaFromType U (.mk k fields) = .ok d) : d.allKeys = [] := by
  cases k <;> first
    | exact absurd rfl hk
    | (simp only [getJSONSchemaFromType] at h
       first
         | (injection h with h; subst h; simp [JSONSchemaDescriptor.allKeys])
         | exact Outcome.noConfusion h)

mutual
theorem getJSONSchemaFromType_allKeys (U : UnicodeTables) :
    ∀ (st : GoType) (d : JSONSchemaDescriptor), getJSONSchemaFromType U st = .ok d →
      ∀ x ∈ d.allKeys, ∃ r, firstRune x = some r ∧ unicodeIsUpper U r = true
  | .mk k fields, d, h => by
    by_cases hk : k = .Struct
    · subst hk
      obtain ⟨props, hp, hd⟩ := getJSONSchemaFromType_struct_ok U fields d h
      subst hd
      intro x hx
      have hx' : x ∈ entriesKeys props := by
        simpa [JSONSchemaDescriptor.allKeys] using hx
      exact structFields_allKeys U fields [] props (by simp [entriesKeys]) hp x hx'
    · intro x hx
      rw [getJSONSchemaFromType_scalar_allKeys U k fields d hk h] at hx
      simp at hx
theorem structFields_allKeys (U : UnicodeTables) :
    ∀ (fields : List (StructField GoType))
      (props props' : GoMap String (Option JSONSchemaDescriptor)),
    (∀ x ∈ entriesKeys props, ∃ r, firstRune x = some r ∧ unicodeIsUpper U r = true) →
    structFields U fields props = .ok props' →
    ∀ x ∈ entriesKeys props', ∃ r, firstRune x = some r ∧ unicodeIsUpper U r = true
  | [], props, props', hprops, h => by
    rw [structFields_nil] at h
    injection h with h
    subst h
    exact hprops
  | f :: rest, props, props', hprops, h => by
    rcases structFields_cons_ok U f rest props props' h with ⟨_, h'⟩ | ⟨hin, d, hd, h'⟩
    · exact structFields_allKeys U rest props props' hprops h'
    · refine structFields_allKeys U rest _ props' ?_ h'
      intro x hx
      rcases entriesKeys_set props (fieldName f) d x hx with hx1 | hx1 | hx1
      · subst hx1
        exact (included_iff U f).mp hin
      · exact getJSONSchemaFromType_allKeys U f.Typ d hd x hx1
      · exact hprops x hx1
end

theorem structFields_ok_all (U : UnicodeTables) (fields : List (StructField GoType)) :
    ∀ props props' : GoMap String (Option JSONSchemaDescriptor),
    structFields U fields props = .ok props' →
    ∀ f ∈ fields, included U f = true → ∃ d, getJSONSchemaFromType U f.Typ = .ok d := by
  induction fields with
  | nil => intro _ _ _ f hf; simp at hf
  | cons g rest ih =>
    intro props props' h f hf hin
    rcases structFields_cons_ok U g rest props props' h with ⟨hex, h'⟩ | ⟨_, d, hd, h'⟩
    · rcases List.mem_cons.mp hf with rfl | hf'
      · rw [hin] at hex; exact absurd hex (by simp)
      · exact ih props props' h' f hf' hin
    · rcases List.mem_cons.mp hf with rfl | hf'
      · exact ⟨d, hd⟩
      · exact ih _ props' h' f hf' hin

/-! ## Lemmas on the document -/

theorem GoMap.set_of_get {κ ν : Type} [DecidableEq κ] (m : GoMap κ ν) (k : κ) (v : ν)
    (h : GoMap.get m k = some v) : GoMap.set m k v = m := by
  induction m with
  | nil => simp [GoMap.get] at h
  | cons p rest ih =>
    obtain ⟨k₁, v₁⟩ := p
    by_cases h1 : k₁ = k
    · subst h1
      simp only [GoMap.get, if_true] at h
      injection h with h
      subst h
      simp [GoMap.set]
    · simp only [GoMap.get, h1, if_false] at h
      simp [GoMap.set, h1, ih h]

theorem GoMap.set_set {κ ν : Type} [DecidableEq κ] (m : GoMap κ ν) (k : κ) (v w : ν) :
    GoMap.set (GoMap.set m k v) k w = GoMap.set m k w := by
  induction m with
  | nil => simp [GoMap.set]
  | cons p rest ih =>
    obtain ⟨k₁, v₁⟩ := p
    by_cases h1 : k₁ = k
    · subst h1
      simp [GoMap.set]
    · simp [GoMap.set, h1, ih]

theorem GoMap.get_map {κ ν μ : Type} [DecidableEq κ] (m : GoMap κ ν) (f : ν → μ) (k : κ) :
    GoMap.get (List.map (fun (e : κ × ν) => (e.1, f e.2)) m) k = (GoMap.get m k).map f := by
  induction m with
  | nil => simp [GoMap.get]
  | cons p rest ih =>
    obtain ⟨k₁, v₁⟩ := p
    by_cases h1 : k₁ = k
    · simp [GoMap.get, h1]
    · simp only [List.map_cons, GoMap.get, h1, if_false]
      exact ih

theorem deref_pathMap (m : Memory) :
    m.deref.pathMap = List.map
      (fun (e : String × Option (GoMap String (Option Nat))) =>
        (e.1, e.2.map (List.map (fun (a : String × Option Nat) =>
          (a.1, a.2.bind (fun p => m.apis.get? p)))))) m.oas.pathMap := by
  unfold OpenAPISpec.pathMap Memory.deref
  rcases h : m.oas.Paths with _ | _ | paths <;> simp

theorem deref_methodMap (m : Memory) (path : String) :
    m.deref.methodMap path = List.map (fun (a : String × Option Nat) =>
      (a.1, a.2.bind (fun p => m.apis.get? p))) (m.oas.methodMap path) := by
  unfold OpenAPISpec.methodMap
  rw [deref_pathMap, GoMap.get_map]
  rcases h : GoMap.get m.oas.pathMap path with _ | _ | methods <;> simp

theorem deref_operation (m : Memory) (path method : String) :
    m.deref.operation path method =
      (m.oas.operation path method).bind (fun p => m.apis.get? p) := by
  unfold OpenAPISpec.operation
  rw [deref_methodMap,
    GoMap.get_map (m.oas.methodMap path) (fun a => a.bind (fun p => m.apis.get? p)) method]
  rcases h : GoMap.get (m.oas.methodMap path) method with _ | _ | p
  · simp
  · simp
  · simp only [Option.map_some', Option.some_bind]
    generalize m.apis.get? p = o
    cases o <;> rfl

theorem operation_eq_some {ρ : Type} (oas : OpenAPISpec ρ) (path method : String) (p : ρ) :
    oas.operation path method = some p ↔
      GoMap.get (oas.methodMap path) method = some (some p) := by
  unfold OpenAPISpec.operation
  rcases h : GoMap.get (oas.methodMap path) method with _ | _ | op <;> simp

theorem operation_eq_none {ρ : Type} (oas : OpenAPISpec ρ) (path method : String) :
    oas.operation path method = none ↔
      ∀ p, GoMap.get (oas.methodMap path) method ≠ some (some p) := by
  unfold OpenAPISpec.operation
  rcases h : GoMap.get (oas.methodMap path) method with _ | _ | op <;> simp

theorem methodMap_get_some {ρ : Type} (oas : OpenAPISpec ρ) (path method : String)
    (v : Option ρ) (h : GoMap.get (oas.methodMap path) method = some v) :
    GoMap.get oas.pathMap path = some (some (oas.methodMap path)) := by
  unfold OpenAPISpec.methodMap at h ⊢
  rcases h2 : GoMap.get oas.pathMap path with _ | _ | methods
  · rw [h2] at h; simp [GoMap.get] at h
  · rw [h2] at h; simp [GoMap.get] at h
  · rfl

theorem pathMap_get_some {ρ : Type} (oas : OpenAPISpec ρ) (path : String)
    (v : Option (GoMap String (Option ρ))) (h : GoMap.get oas.pathMap path = some v) :
    oas.Paths = some (some oas.pathMap) := by
  unfold OpenAPISpec.pathMap at h ⊢
  rcases h2 : oas.Paths with _ | _ | paths
  · rw [h2] at h; simp [GoMap.get] at h
  · rw [h2] at h; simp [GoMap.get] at h
  · rfl

theorem AddJSONEndpoint_eq (U : UnicodeTables) (m : Memory) (method path : String)
    (q : Option QueryDescriptor) (hp : m.oas.Paths ≠ some none) :
    AddJSONEndpoint U m method path q =
      match (allocOperation m path (stringsToLower U method)).1.get?
          (allocOperation m path (stringsToLower U method)).2 with
      | none => none
      | some api =>
        some (Memory.mk
                { m.oas with
                  Paths := some (some (GoMap.set m.oas.pathMap path
                    (some (GoMap.set (m.oas.methodMap path) (stringsToLower U method)
                      (some (allocOperation m path (stringsToLower U method)).2))))) }
                (match api.Responses with
                  | none => (allocOperation m path (stringsToLower U method)).1.set
                      (allocOperation m path (stringsToLower U method)).2
                      { api with Responses := some [] }
                  | some _ => (allocOperation m path (stringsToLower U method)).1),
              Endpoint.mk (some (allocOperation m path (stringsToLower U method)).2)) := by
  unfold AddJSONEndpoint allocOperation OpenAPISpec.methodMap OpenAPISpec.pathMap
  rcases h : m.oas.Paths with _ | _ | paths
  · rfl
  · exact absurd h hp
  · dsimp only
    rcases GoMap.get paths path with _ | _ | ms
    · rfl
    · rfl
    · dsimp only

theorem operation_paths_not_nil_map {ρ : Type} (oas : OpenAPISpec ρ) (path method : String)
    (p : ρ) (h : oas.operation path method = some p) : oas.Paths = some (some oas.pathMap) :=
  pathMap_get_some oas path _
    (methodMap_get_some oas path method _ ((operation_eq_some oas path method p).mp h))

theorem operation_update {ρ : Type} (oas : OpenAPISpec ρ) (path method : String) (p : ρ)
    (path' method' : String) :
    OpenAPISpec.operation
        { oas with
          Paths := some (some (GoMap.set oas.pathMap path
            (some (GoMap.set (oas.methodMap path) method (some p))))) } path' method' =
      if path' = path ∧ method' = method then some p else oas.operation path' method' := by
  by_cases hpath : path' = path
  · subst hpath
    have hm : OpenAPISpec.methodMap
        { oas with
          Paths := some (some (GoMap.set oas.pathMap path'
            (some (GoMap.set (oas.methodMap path') method (some p))))) } path' =
        GoMap.set (oas.methodMap path') method (some p) := by
      simp only [OpenAPISpec.methodMap, OpenAPISpec.pathMap]
      rw [GoMap.get_set_self]
    unfold OpenAPISpec.operation
    rw [hm]
    by_cases hmeth : method' = method
    · subst hmeth
      rw [GoMap.get_set_self]
      simp
    · rw [GoMap.get_set_ne _ _ _ _ (fun e => hmeth e.symm)]
      simp [hmeth]
  · have hm : OpenAPISpec.methodMap
        { oas with
          Paths := some (some (GoMap.set oas.pathMap path
            (some (GoMap.set (oas.methodMap path) method (some p))))) } path' =
        oas.methodMap path' := by
      simp only [OpenAPISpec.methodMap, OpenAPISpec.pathMap]
      rw [GoMap.get_set_ne _ _ _ _ (fun e => hpath e.symm)]
    unfold OpenAPISpec.operation
    rw [hm]
    simp [hpath]

theorem allocOperation_existing (m : Memory) (path method : String) (p : Nat)
    (h : m.oas.operation path method = some p) : allocOperation m path method = (m.apis, p) := by
  unfold allocOperation
  rw [(operation_eq_some _ _ _ _).mp h]

theorem allocOperation_fresh (m : Memory) (path method : String)
    (h : m.oas.operation path method = none) :
    allocOperation m path method =
      (m.apis ++ [{ Summary := "", Description := "", Responses := none }], m.apis.length) := by
  have h' := (operation_eq_none _ _ _).mp h
  unfold allocOperation
  rcases hg : GoMap.get (m.oas.methodMap path) method with _ | _ | p
  · rfl
  · rfl
  · exact absurd hg (h' p)

theorem AddJSONEndpoint_existing (U : UnicodeTables) (m : Memory) (method path : String)
    (q : Option QueryDescriptor) (p : Nat) (api : OpenAPIAPI)
    (hop : m.oas.operation path (stringsToLower U method) = some p)
    (hapi : m.apis.get? p = some api) :
    AddJSONEndpoint U m method path q =
      some (Memory.mk m.oas
        (match api.Responses with
          | none => m.apis.set p { api with Responses := some [] }
          | some _ => m.apis), Endpoint.mk (some p)) := by
  have hpaths := operation_paths_not_nil_map _ _ _ _ hop
  have hget := (operation_eq_some _ _ _ _).mp hop
  have hpm := methodMap_get_some _ _ _ _ hget
  rw [AddJSONEndpoint_eq U m method path q (by rw [hpaths]; simp),
    allocOperation_existing m path _ p hop]
  simp only [hapi]
  rw [GoMap.set_of_get _ _ _ hget, GoMap.set_of_get _ _ _ hpm, ← hpaths]

theorem AddJSONEndpoint_fresh (U : UnicodeTables) (m : Memory) (method path : String)
    (q : Option QueryDescriptor) (hp : m.oas.Paths ≠ some none)
    (hop : m.oas.operation path (stringsToLower U method) = none) :
    AddJSONEndpoint U m method path q =
      some (Memory.mk
        { m.oas with
          Paths := some (some (GoMap.set m.oas.pathMap path
            (some (GoMap.set (m.oas.methodMap path) (stringsToLower U method)
              (some m.apis.length))))) }
        (m.apis ++ [{ Summary := "", Description := "", Responses := some [] }]),
        Endpoint.mk (some m.apis.length)) := by
  rw [AddJSONEndpoint_eq U m method path q hp, allocOperation_fresh m path _ hop]
  simp

theorem AddResponse_eq (m : Memory) (endpoint : Endpoint) (statusCode : Int)
    (returnBody : Option JSONSchemaDescriptor) (p : Nat) (api : OpenAPIAPI)
    (responses : GoMap Int (Option OpenAPIResponse))
    (he : endpoint.responses = some p) (hapi : m.apis.get? p = some api)
    (hr : api.Responses = some responses) :
    AddResponse m endpoint statusCode returnBody =
      some (Memory.mk m.oas (m.apis.set p
        { api with Responses := some (attachResponse responses statusCode returnBody) })) := by
  unfold AddResponse attachResponse responseOrNew contentOrNew
  simp only [he, hapi, hr]

theorem attachResponse_get_ne (responses : GoMap Int (Option OpenAPIResponse))
    (statusCode other : Int) (returnBody : Option JSONSchemaDescriptor)
    (h : other ≠ statusCode) :
    GoMap.get (attachResponse responses statusCode returnBody) other =
      GoMap.get responses other := by
  unfold attachResponse
  exact GoMap.get_set_ne _ _ _ _ (fun e => h e.symm)

theorem attachResponse_get_self (responses : GoMap Int (Option OpenAPIResponse))
    (statusCode : Int) (returnBody : Option JSONSchemaDescriptor) :
    GoMap.get (attachResponse responses statusCode returnBody) statusCode = some (some
      { Description := (responseOrNew responses statusCode).Description
        Content := some (GoMap.set (contentOrNew (responseOrNew responses statusCode))
          "application/json" (some { Schema := returnBody })) }) := by
  unfold attachResponse
  exact GoMap.get_set_self _ _ _

theorem attachResponse_attachResponse (responses : GoMap Int (Option OpenAPIResponse))
    (statusCode : Int) (a b : Option JSONSchemaDescriptor) :
    attachResponse (attachResponse responses statusCode a) statusCode b =
      attachResponse responses statusCode b := by
  have h : responseOrNew (attachResponse responses statusCode a) statusCode =
      { Description := (responseOrNew responses statusCode).Description
        Content := some (GoMap.set (contentOrNew (responseOrNew responses statusCode))
          "application/json" (some { Schema := a })) } := by
    rw [responseOrNew, attachResponse_get_self]
  have h2 : attachResponse (attachResponse responses statusCode a) statusCode b =
      GoMap.set (attachResponse responses statusCode a) statusCode (some
        { Description := (responseOrNew (attachResponse responses statusCode a)
            statusCode).Description
          Content := some (GoMap.set (contentOrNew (responseOrNew
              (attachResponse responses statusCode a) statusCode))
            "application/json" (some { Schema := b })) }) := rfl
  rw [h2, h]
  simp only [contentOrNew, GoMap.set_set]
  unfold attachResponse
  rw [GoMap.set_set]
  rfl


theorem get?_lt_length {α : Type} (l : List α) (i : Nat) (a : α) (h : l.get? i = some a) :
    i < l.length := by
  rw [List.get?_eq_getElem?] at h
  exact (List.getElem?_eq_some.mp h).1

theorem get?_set_self {α : Type} (l : List α) (i : Nat) (a b : α) (h : l.get? i = some a) :
    (l.set i b).get? i = some b := by
  rw [List.get?_eq_getElem?]
  exact List.getElem?_set_self (get?_lt_length l i a h)

theorem get?_set_other {α : Type} (l : List α) (i j : Nat) (b : α) (h : j ≠ i) :
    (l.set i b).get? j = l.get? j := by
  rw [List.get?_eq_getElem?, List.get?_eq_getElem?]
  exact List.getElem?_set_ne (fun e => h e.symm)

theorem get?_append_single {α : Type} (l : List α) (j : Nat) (a : α) (h : j < l.length) :
    (l ++ [a]).get? j = l.get? j := by
  rw [List.get?_eq_getElem?, List.get?_eq_getElem?]
  exact List.getElem?_append_left h

theorem get?_append_length {α : Type} (l : List α) (a : α) :
    (l ++ [a]).get? l.length = some a := by
  rw [List.get?_eq_getElem?]
  exact List.getElem?_concat_length l a

theorem AddJSONEndpoint_inv (U : UnicodeTables) (m : Memory) (method path : String)
    (q : Option QueryDescriptor) (m₁ : Memory) (e₁ : Endpoint)
    (h : AddJSONEndpoint U m method path q = some (m₁, e₁)) :
    (∃ p api, m.oas.operation path (stringsToLower U method) = some p ∧
      m.apis.get? p = some api ∧
      m₁ = Memory.mk m.oas
        (match api.Responses with
          | none => m.apis.set p { api with Responses := some [] }
          | some _ => m.apis) ∧
      e₁ = Endpoint.mk (some p)) ∨
    (m.oas.Paths ≠ some none ∧
      m.oas.operation path (stringsToLower U method) = none ∧
      m₁ = Memory.mk
        { m.oas with
          Paths := some (some (GoMap.set m.oas.pathMap path
            (some (GoMap.set (m.oas.methodMap path) (stringsToLower U method)
              (some m.apis.length))))) }
        (m.apis ++ [{ Summary := "", Description := "", Responses := some [] }]) ∧
      e₁ = Endpoint.mk (some m.apis.length)) := by
  have hp : m.oas.Paths ≠ some none := by
    intro hp
    unfold AddJSONEndpoint at h
    rw [hp] at h
    simp at h
  rcases hop : m.oas.operation path (stringsToLower U method) with _ | p
  · right
    rw [AddJSONEndpoint_fresh U m method path q hp hop] at h
    injection h with h
    injection h with h1 h2
    exact ⟨hp, rfl, h1.symm, h2.symm⟩
  · left
    rcases hapi : m.apis.get? p with _ | api
    · rw [AddJSONEndpoint_eq U m method path q hp, allocOperation_existing m path _ p hop] at h
      simp only [hapi] at h
      exact Option.noConfusion h
    · rw [AddJSONEndpoint_existing U m method path q p api hop hapi] at h
      injection h with h
      injection h with h1 h2
      exact ⟨p, api, rfl, hapi, h1.symm, h2.symm⟩

theorem AddJSONEndpoint_registers (U : UnicodeTables) (m : Memory) (method path : String)
    (q : Option QueryDescriptor) (m₁ : Memory) (e₁ : Endpoint)
    (h : AddJSONEndpoint U m method path q = some (m₁, e₁)) :
    ∃ p api₁, e₁ = Endpoint.mk (some p) ∧
      m₁.oas.operation path (stringsToLower U method) = some p ∧
      m₁.apis.get? p = some api₁ ∧ api₁.Responses ≠ none := by
  rcases AddJSONEndpoint_inv U m method path q m₁ e₁ h with
    ⟨p, api, hop, hapi, hm, he⟩ | ⟨_, _, hm, he⟩
  · subst hm
    rcases hr : api.Responses with _ | r
    · exact ⟨p, { api with Responses := some [] }, he, hop,
        get?_set_self _ _ _ _ hapi, by simp⟩
    · exact ⟨p, api, he, hop, hapi, by rw [hr]; simp⟩
  · subst hm
    refine ⟨m.apis.length, _, he, ?_, get?_append_length _ _, by simp⟩
    simp only []
    rw [operation_update]
    simp


theorem get?_of_lt {α : Type} (l : List α) (i : Nat) (h : i < l.length) :
    ∃ a, l.get? i = some a := by
  rw [List.get?_eq_getElem?]
  exact ⟨l[i], List.getElem?_eq_some.mpr ⟨h, rfl⟩⟩

theorem New_wellFormed (title version : String) : (New title version).WellFormed := by
  refine ⟨by simp [New], ?_, ?_⟩
  · intro path method p h
    simp [New, OpenAPISpec.operation, OpenAPISpec.methodMap, OpenAPISpec.pathMap,
      GoMap.get] at h
  · intro path method path' method' p h
    simp [New, OpenAPISpec.operation, OpenAPISpec.methodMap, OpenAPISpec.pathMap,
      GoMap.get] at h

theorem AddJSONEndpoint_total (U : UnicodeTables) (m : Memory) (method path : String)
    (q : Option QueryDescriptor) (hwf : m.WellFormed) :
    ∃ m₁ e₁, AddJSONEndpoint U m method path q = some (m₁, e₁) := by
  rcases hop : m.oas.operation path (stringsToLower U method) with _ | p
  · exact ⟨_, _, AddJSONEndpoint_fresh U m method path q hwf.pathsNotNilMap hop⟩
  · obtain ⟨api, hapi⟩ := get?_of_lt m.apis p (hwf.allocated _ _ _ hop)
    exact ⟨_, _, AddJSONEndpoint_existing U m method path q p api hop hapi⟩

theorem AddJSONEndpoint_header (U : UnicodeTables) (m : Memory) (method path : String)
    (q : Option QueryDescriptor) (m₁ : Memory) (e₁ : Endpoint)
    (h : AddJSONEndpoint U m method path q = some (m₁, e₁)) :
    m₁.oas.OpenAPI = m.oas.OpenAPI ∧ m₁.oas.Info = m.oas.Info ∧
      m₁.oas.Servers = m.oas.Servers := by
  rcases AddJSONEndpoint_inv U m method path q m₁ e₁ h with
    ⟨p, api, _, _, hm, _⟩ | ⟨_, _, hm, _⟩
  · subst hm; exact ⟨rfl, rfl, rfl⟩
  · subst hm; exact ⟨rfl, rfl, rfl⟩

theorem AddJSONEndpoint_wellFormed (U : UnicodeTables) (m : Memory) (method path : String)
    (q : Option QueryDescriptor) (m₁ : Memory) (e₁ : Endpoint) (hwf : m.WellFormed)
    (h : AddJSONEndpoint U m method path q = some (m₁, e₁)) : m₁.WellFormed := by
  rcases AddJSONEndpoint_inv U m method path q m₁ e₁ h with
    ⟨p, api, hop, hapi, hm, _⟩ | ⟨hp, hop, hm, _⟩
  · subst hm
    have hlen : (match api.Responses with
        | none => m.apis.set p { api with Responses := some [] }
        | some _ => m.apis).length = m.apis.length := by
      cases api.Responses <;> simp
    refine ⟨hwf.pathsNotNilMap, ?_, hwf.unshared⟩
    intro path' method' p' h'
    show p' < (match api.Responses with
        | none => m.apis.set p { api with Responses := some [] }
        | some _ => m.apis).length
    rw [hlen]
    exact hwf.allocated _ _ _ h'
  · subst hm
    refine ⟨by simp, ?_, ?_⟩
    · intro path' method' p' h'
      simp only [] at h'
      rw [operation_update] at h'
      simp only [List.length_append, List.length_singleton]
      by_cases hc : path' = path ∧ method' = stringsToLower U method
      · rw [if_pos hc] at h'
        injection h' with h'
        omega
      · rw [if_neg hc] at h'
        have := hwf.allocated _ _ _ h'
        omega
    · intro path₁ method₁ path₂ method₂ p' h1 h2
      simp only [] at h1 h2
      rw [operation_update] at h1 h2
      by_cases hc1 : path₁ = path ∧ method₁ = stringsToLower U method
      · by_cases hc2 : path₂ = path ∧ method₂ = stringsToLower U method
        · exact ⟨hc1.1.trans hc2.1.symm, hc1.2.trans hc2.2.symm⟩
        · rw [if_pos hc1] at h1
          rw [if_neg hc2] at h2
          injection h1 with h1
          have := hwf.allocated _ _ _ h2
          omega
      · by_cases hc2 : path₂ = path ∧ method₂ = stringsToLower U method
        · rw [if_neg hc1] at h1
          rw [if_pos hc2] at h2
          injection h2 with h2
          have := hwf.allocated _ _ _ h1
          omega
        · rw [if_neg hc1] at h1
          rw [if_neg hc2] at h2
          exact hwf.unshared _ _ _ _ _ h1 h2

theorem AddJSONEndpoint_other_operations (U : UnicodeTables) (m : Memory)
    (method path : String) (q : Option QueryDescriptor) (m₁ : Memory) (e₁ : Endpoint)
    (hwf : m.WellFormed) (h : AddJSONEndpoint U m method path q = some (m₁, e₁))
    (path' method' : String)
    (hne : path' ≠ path ∨ method' ≠ stringsToLower U method) :
    m₁.deref.operation path' method' = m.deref.operation path' method' := by
  rw [deref_operation, deref_operation]
  have hc : ¬ (path' = path ∧ method' = stringsToLower U method) := by
    rintro ⟨h1, h2⟩
    rcases hne with hne | hne
    · exact hne h1
    · exact hne h2
  rcases AddJSONEndpoint_inv U m method path q m₁ e₁ h with
    ⟨p, api, hop, hapi, hm, _⟩ | ⟨hp, hop, hm, _⟩
  · subst hm
    show (m.oas.operation path' method').bind (fun p' => (match api.Responses with
        | none => m.apis.set p { api with Responses := some [] }
        | some _ => m.apis).get? p') = _
    rcases hop' : m.oas.operation path' method' with _ | p'
    · rfl
    · have hpp : p' ≠ p := by
        intro e
        subst e
        exact hc (hwf.unshared _ _ _ _ _ hop' hop)
      simp only [Option.some_bind]
      cases api.Responses with
      | none => exact get?_set_other _ _ _ _ hpp
      | some r => rfl
  · subst hm
    simp only []
    rw [operation_update, if_neg hc]
    rcases hop' : m.oas.operation path' method' with _ | p'
    · rfl
    · simp only [Option.some_bind]
      exact get?_append_single _ _ _ (hwf.allocated _ _ _ hop')


theorem AddResponse_of_bound (m : Memory) (endpoint : Endpoint) (statusCode : Int)
    (returnBody : Option JSONSchemaDescriptor) (hb : endpoint.Bound m) :
    ∃ p api responses, endpoint.responses = some p ∧ m.apis.get? p = some api ∧
      api.Responses = some responses ∧
      AddResponse m endpoint statusCode returnBody =
        some (Memory.mk m.oas (m.apis.set p
          { api with Responses := some (attachResponse responses statusCode returnBody) })) := by
  obtain ⟨p, api, he, hapi, hr⟩ := hb
  rcases hrs : api.Responses with _ | responses
  · exact absurd hrs hr
  · exact ⟨p, api, responses, he, hapi, hrs,
      AddResponse_eq m endpoint statusCode returnBody p api responses he hapi hrs⟩

theorem AddJSONEndpoint_bound (U : UnicodeTables) (m : Memory) (method path : String)
    (q : Option QueryDescriptor) (m₁ : Memory) (e₁ : Endpoint)
    (h : AddJSONEndpoint U m method path q = some (m₁, e₁)) : e₁.Bound m₁ := by
  obtain ⟨p, api₁, he, _, hapi, hr⟩ := AddJSONEndpoint_registers U m method path q m₁ e₁ h
  subst he
  exact ⟨p, api₁, rfl, hapi, hr⟩

theorem response_attachResponse_self (summary description : String)
    (responses : GoMap Int (Option OpenAPIResponse)) (statusCode : Int)
    (returnBody : Option JSONSchemaDescriptor) :
    OpenAPIAPI.response
        { Summary := summary, Description := description,
          Responses := some (attachResponse responses statusCode returnBody) } statusCode =
      some { Description := (responseOrNew responses statusCode).Description
             Content := some (GoMap.set (contentOrNew (responseOrNew responses statusCode))
               "application/json" (some { Schema := returnBody })) } := by
  simp only [OpenAPIAPI.response]
  rw [attachResponse_get_self]

theorem response_attachResponse_ne (summary description : String)
    (responses : GoMap Int (Option OpenAPIResponse)) (statusCode other : Int)
    (returnBody : Option JSONSchemaDescriptor) (h : other ≠ statusCode) :
    OpenAPIAPI.response
        { Summary := summary, Description := description,
          Responses := some (attachResponse responses statusCode returnBody) } other =
      OpenAPIAPI.response
        { Summary := summary, Description := description, Responses := some responses }
        other := by
  simp only [OpenAPIAPI.response]
  rw [attachResponse_get_ne _ _ _ _ h]

theorem jsonSchema_attachResponse (summary description : String)
    (responses : GoMap Int (Option OpenAPIResponse)) (statusCode : Int)
    (returnBody : Option JSONSchemaDescriptor) :
    OpenAPIAPI.jsonSchema
        { Summary := summary, Description := description,
          Responses := some (attachResponse responses statusCode returnBody) } statusCode =
      some returnBody := by
  unfold OpenAPIAPI.jsonSchema
  rw [response_attachResponse_self]
  simp [OpenAPIResponse.content, GoMap.get_set_self]

theorem AddResponse_wellFormed (m : Memory) (endpoint : Endpoint) (statusCode : Int)
    (returnBody : Option JSONSchemaDescriptor) (m₁ : Memory) (hwf : m.WellFormed)
    (h : AddResponse m endpoint statusCode returnBody = some m₁) : m₁.WellFormed := by
  unfold AddResponse at h
  rcases he : endpoint.responses with _ | p
  · rw [he] at h; exact Option.noConfusion h
  · rw [he] at h
    simp only [] at h
    rcases hapi : m.apis.get? p with _ | api
    · rw [hapi] at h; exact Option.noConfusion h
    · rw [hapi] at h
      simp only [] at h
      rcases hr : api.Responses with _ | responses
      · rw [hr] at h; exact Option.noConfusion h
      · rw [hr] at h
        simp only [] at h
        injection h with h
        subst h
        refine ⟨hwf.pathsNotNilMap, ?_, hwf.unshared⟩
        intro path method p' hop
        simp only [List.length_set]
        exact hwf.allocated _ _ _ hop


theorem unicodeToLower_ascii_idem (U : UnicodeTables) (r : Char) (h : r.toNat ≤ 0x7F) :
    unicodeToLower U (unicodeToLower U r) = unicodeToLower U r := by
  have key : ∀ n : Fin 128, unicodeToLower U (unicodeToLower U (Char.ofNat n.val)) =
      unicodeToLower U (Char.ofNat n.val) := by
    intro n
    have h1 : ∀ k : Fin 128, (Char.ofNat k.val).toNat ≤ 0x7F := by decide
    have h2 : ∀ k : Fin 128, (if 0x41 ≤ (Char.ofNat k.val).toNat ∧
        (Char.ofNat k.val).toNat ≤ 0x5A then Char.ofNat ((Char.ofNat k.val).toNat + 0x20)
        else Char.ofNat k.val).toNat ≤ 0x7F := by decide
    have h3 : ∀ k : Fin 128, ¬ (0x41 ≤ (if 0x41 ≤ (Char.ofNat k.val).toNat ∧
        (Char.ofNat k.val).toNat ≤ 0x5A then Char.ofNat ((Char.ofNat k.val).toNat + 0x20)
        else Char.ofNat k.val).toNat ∧ (if 0x41 ≤ (Char.ofNat k.val).toNat ∧
        (Char.ofNat k.val).toNat ≤ 0x5A then Char.ofNat ((Char.ofNat k.val).toNat + 0x20)
        else Char.ofNat k.val).toNat ≤ 0x5A) := by decide
    unfold unicodeToLower
    rw [if_pos (h1 n), if_pos (h2 n), if_neg (h3 n)]
  have hr : r = Char.ofNat r.toNat := by
    simp [Char.ofNat_toNat]
  have hlt : r.toNat < 128 := by omega
  have := key ⟨r.toNat, hlt⟩
  simp only at this
  rw [← hr] at this
  exact this


theorem stringsToLower_idem (U : UnicodeTables) (s : String)
    (h : ∀ c ∈ s.data, unicodeToLower U (unicodeToLower U c) = unicodeToLower U c) :
    stringsToLower U (stringsToLower U s) = stringsToLower U s := by
  unfold stringsToLower
  simp only [List.map_map]
  congr 1
  apply List.map_congr_left
  intro c hc
  exact h c hc

theorem AddJSONEndpoint_of_lower_idem (U : UnicodeTables) (m : Memory) (method path : String)
    (q : Option QueryDescriptor)
    (h : stringsToLower U (stringsToLower U method) = stringsToLower U method) :
    AddJSONEndpoint U m (stringsToLower U method) path q = AddJSONEndpoint U m method path q := by
  unfold AddJSONEndpoint
  rw [h]


theorem responseOrNew_description (summary description : String)
    (responses : GoMap Int (Option OpenAPIResponse)) (statusCode : Int) :
    (responseOrNew responses statusCode).Description =
      match OpenAPIAPI.response
          { Summary := summary, Description := description, Responses := some responses }
          statusCode with
      | some r => r.Description
      | none => "" := by
  simp only [responseOrNew, OpenAPIAPI.response]
  rcases GoMap.get responses statusCode with _ | _ | r <;> rfl

theorem contentOrNew_get (summary description : String)
    (responses : GoMap Int (Option OpenAPIResponse)) (statusCode : Int) (mediaType : String) :
    (match GoMap.get (contentOrNew (responseOrNew responses statusCode)) mediaType with
      | some (some c) => some c
      | _ => none) =
      (OpenAPIAPI.response
          { Summary := summary, Description := description, Responses := some responses }
          statusCode).bind (fun r => r.content mediaType) := by
  simp only [responseOrNew, OpenAPIAPI.response, contentOrNew, OpenAPIResponse.content]
  rcases GoMap.get responses statusCode with _ | _ | r
  · rfl
  · rfl
  · simp only [Option.some_bind]
    rcases r.Content with _ | c <;> rfl


theorem AddResponse_bound (m : Memory) (endpoint : Endpoint) (statusCode : Int)
    (returnBody : Option JSONSchemaDescriptor) (m₁ : Memory) (hb : endpoint.Bound m)
    (h : AddResponse m endpoint statusCode returnBody = some m₁) : endpoint.Bound m₁ := by
  obtain ⟨p, api, responses, he, hapi, _, hadd⟩ :=
    AddResponse_of_bound m endpoint statusCode returnBody hb
  rw [hadd] at h
  injection h with h
  subst h
  exact ⟨p, _, he, get?_set_self _ _ _ _ hapi, by simp⟩


theorem built_wellFormed (U : UnicodeTables) (m : Memory) (h : Memory.Built U m) :
    m.WellFormed := by
  induction h with
  | new title version => exact New_wellFormed title version
  | addJSONEndpoint m method path q m₁ e _ h ih =>
    exact AddJSONEndpoint_wellFormed U m method path q m₁ e ih h
  | addResponse m e statusCode returnBody m₁ _ h ih =>
    exact AddResponse_wellFormed m e statusCode returnBody m₁ ih h

theorem AddJSONEndpoint_keeps_bound (U : UnicodeTables) (m : Memory) (method path : String)
    (q : Option QueryDescriptor) (m₁ : Memory) (e₁ : Endpoint) (e : Endpoint)
    (hb : e.Bound m) (h : AddJSONEndpoint U m method path q = some (m₁, e₁)) : e.Bound m₁ := by
  obtain ⟨p, api, he, hapi, hr⟩ := hb
  rcases AddJSONEndpoint_inv U m method path q m₁ e₁ h with
    ⟨p', api', _, hapi', hm, _⟩ | ⟨_, _, hm, _⟩
  · subst hm
    rcases hrs : api'.Responses with _ | r
    · by_cases hpp : p = p'
      · subst hpp
        exact ⟨p, _, he, get?_set_self _ _ _ _ hapi', by simp⟩
      · exact ⟨p, api, he, by rw [← hapi]; exact get?_set_other _ _ _ _ hpp, hr⟩
    · exact ⟨p, api, he, hapi, hr⟩
  · subst hm
    exact ⟨p, api, he,
      by rw [← hapi]; exact get?_append_single _ _ _ (get?_lt_length _ _ _ hapi), hr⟩


theorem marshalMap_map_congr {κ α ν : Type} (key : κ → String) (value : ν → JSON)
    (l : List (κ × α)) (f g : α → ν) (h : ∀ a, value (f a) = value (g a)) :
    marshalMap key value (some (l.map (fun e => (e.1, f e.2)))) =
      marshalMap key value (some (l.map (fun e => (e.1, g e.2)))) := by
  simp only [marshalMap, List.map_map]
  congr 2
  apply List.map_congr_left
  intro a _
  simp only [Function.comp]
  rw [h a.2]

theorem marshal_deref_congr (oas : OpenAPISpec Nat) (apis apis₂ : List OpenAPIAPI)
    (h : ∀ q, (apis₂.get? q).map OpenAPIAPI.marshal = (apis.get? q).map OpenAPIAPI.marshal) :
    (Memory.mk oas apis₂).deref.marshal = (Memory.mk oas apis).deref.marshal := by
  have hentry : ∀ a : Option Nat,
      marshalPointer OpenAPIAPI.marshal (a.bind (fun p => apis₂.get? p)) =
      marshalPointer OpenAPIAPI.marshal (a.bind (fun p => apis.get? p)) := by
    intro a
    cases a with
    | none => rfl
    | some p =>
      have hp := h p
      simp only [Option.some_bind]
      cases h2 : apis₂.get? p <;> cases h1 : apis.get? p <;> rw [h1, h2] at hp <;>
        simp_all [marshalPointer]
  have hmethods : ∀ ms : Option (GoMap String (Option Nat)),
      marshalMap (fun k => k) (marshalPointer OpenAPIAPI.marshal)
        (ms.map (List.map (fun (a : String × Option Nat) =>
          (a.1, a.2.bind (fun p => apis₂.get? p))))) =
      marshalMap (fun k => k) (marshalPointer OpenAPIAPI.marshal)
        (ms.map (List.map (fun (a : String × Option Nat) =>
          (a.1, a.2.bind (fun p => apis.get? p))))) := by
    intro ms
    cases ms with
    | none => rfl
    | some l =>
      simp only [Option.map_some']
      exact marshalMap_map_congr _ _ l _ _ hentry
  unfold OpenAPISpec.marshal Memory.deref
  simp only []
  rcases oas.Paths with _ | _ | paths
  · rfl
  · rfl
  · simp only [Option.map_some']
    rw [marshalMap_map_congr (fun k => k)
      (marshalMap (fun k => k) (marshalPointer OpenAPIAPI.marshal)) paths _ _ hmethods]

theorem AddJSONEndpoint_existing_spec (U : UnicodeTables) (m : Memory) (method path : String)
    (q : Option QueryDescriptor) (p : Nat) (api : OpenAPIAPI)
    (hop : m.oas.operation path (stringsToLower U method) = some p)
    (hapi : m.apis.get? p = some api) :
    ∃ m₂ api₂, AddJSONEndpoint U m method path q = some (m₂, Endpoint.mk (some p)) ∧
      m₂.oas = m.oas ∧ (∀ p', p' ≠ p → m₂.apis.get? p' = m.apis.get? p') ∧
      m₂.apis.get? p = some api₂ ∧
      api₂.Summary = api.Summary ∧ api₂.Description = api.Description ∧
      (∀ status, api₂.response status = api.response status) ∧
      m₂.deref.marshal = m.deref.marshal := by
  rcases hrs : api.Responses with _ | r
  · have hm : api.marshal =
        OpenAPIAPI.marshal { api with Responses := some [] } := by
      simp [OpenAPIAPI.marshal, hrs, emptyMap]
    refine ⟨Memory.mk m.oas (m.apis.set p { api with Responses := some [] }),
      { api with Responses := some [] }, ?_, rfl, ?_, get?_set_self _ _ _ _ hapi, rfl, rfl,
      ?_, ?_⟩
    · rw [AddJSONEndpoint_existing U m method path q p api hop hapi, hrs]
    · intro p' hp'
      exact get?_set_other _ _ _ _ hp'
    · intro status
      simp [OpenAPIAPI.response, hrs, GoMap.get]
    · apply marshal_deref_congr m.oas m.apis
      intro q'
      by_cases hq : q' = p
      · subst hq
        rw [get?_set_self _ _ _ _ hapi, hapi]
        simp only [Option.map_some']
        rw [hm]
      · rw [get?_set_other _ _ _ _ hq]
  · refine ⟨m, api, ?_, rfl, fun _ _ => rfl, hapi, rfl, rfl, fun _ => rfl, rfl⟩
    rw [AddJSONEndpoint_existing U m method path q p api hop hapi, hrs]

/-! ## Further lemmas on descriptors and on the field loop -/

theorem entriesNested_cons (k : String) (v : Option JSONSchemaDescriptor)
    (rest : List (String × Option JSONSchemaDescriptor)) (x : JSONSchemaDescriptor) :
    x ∈ entriesNested ((k, v) :: rest) ↔
      (∃ d, v = some d ∧ x ∈ d.nested) ∨ x ∈ entriesNested rest := by
  cases v with
  | none => simp [entriesNested]
  | some d => simp [entriesNested]

theorem entriesNested_set (props : List (String × Option JSONSchemaDescriptor)) (k : String)
    (d : JSONSchemaDescriptor) (x : JSONSchemaDescriptor)
    (hx : x ∈ entriesNested (GoMap.set props k (some d))) :
    x ∈ d.nested ∨ x ∈ entriesNested props := by
  induction props with
  | nil =>
    have hx' : x ∈ entriesNested [(k, some d)] := hx
    rw [entriesNested_cons] at hx'
    rcases hx' with ⟨d', hd', h⟩ | h
    · injection hd' with hd'
      subst hd'
      exact Or.inl h
    · simp [entriesNested] at h
  | cons p rest ih =>
    obtain ⟨k₁, v₁⟩ := p
    by_cases h1 : k₁ = k
    · subst h1
      have hx' : x ∈ entriesNested ((k₁, some d) :: rest) := by
        simpa [GoMap.set] using hx
      rw [entriesNested_cons] at hx'
      rcases hx' with ⟨d', hd', h⟩ | h
      · injection hd' with hd'
        subst hd'
        exact Or.inl h
      · exact Or.inr ((entriesNested_cons k₁ v₁ rest x).mpr (Or.inr h))
    · have hx' : x ∈ entriesNested ((k₁, v₁) :: GoMap.set rest k (some d)) := by
        simpa [GoMap.set, h1] using hx
      rw [entriesNested_cons] at hx'
      rcases hx' with h | h
      · exact Or.inr ((entriesNested_cons k₁ v₁ rest x).mpr (Or.inl h))
      · rcases ih h with h | h
        · exact Or.inl h
        · exact Or.inr ((entriesNested_cons k₁ v₁ rest x).mpr (Or.inr h))

theorem invariant_of_scalar (t : String) (lo hi : Int)
    (h1 : (lo ≠ 0 ∨ hi ≠ 0) → t = "integer")
    (h2 : t = "integer" → hi ≠ 0 ∨ (lo = 0 ∧ hi = 0))
    (h3 : t ≠ "object") :
    (JSONSchemaDescriptor.mk t none lo hi none).Invariant := by
  refine ⟨h1, ?_, ?_⟩
  · intro ht
    have ht' : t = "integer" := ht
    rcases h2 ht' with h | ⟨hlo, hhi⟩
    · exact Or.inl h
    · subst ht' hlo hhi
      exact Or.inr rfl
  · constructor
    · intro h
      exact absurd rfl h
    · intro h
      exact absurd h h3

theorem getJSONSchemaFromType_scalar_nested (U : UnicodeTables) (k : Kind)
    (fields : List (StructField GoType)) (d : JSONSchemaDescriptor) (hk : k ≠ .Struct)
    (h : getJSONSchemaFromType U (.mk k fields) = .ok d) :
    d.nested = [d] ∧ d.Invariant := by
  cases k <;> first
    | exact absurd rfl hk
    | (simp only [getJSONSchemaFromType] at h
       first
         | exact Outcome.noConfusion h
         | (injection h with h
            subst h
            refine ⟨rfl, invariant_of_scalar _ _ _ ?_ ?_ ?_⟩ <;> decide))

theorem invariant_object (props : List (String × Option JSONSchemaDescriptor)) :
    (JSONSchemaDescriptor.mk "object" none 0 0 (some props)).Invariant := by
  refine ⟨?_, ?_, ?_⟩
  · intro h
    rcases h with h | h <;> exact absurd rfl h
  · intro h
    have h' : "object" = "integer" := h
    exact absurd h' (by decide)
  · constructor
    · intro _
      rfl
    · intro _ h
      exact Option.noConfusion h

mutual
theorem getJSONSchemaFromType_nested_invariant (U : UnicodeTables) :
    ∀ (st : GoType) (d : JSONSchemaDescriptor), getJSONSchemaFromType U st = .ok d →
      ∀ x ∈ d.nested, x.Invariant
  | .mk k fields, d, h => by
    by_cases hk : k = .Struct
    · subst hk
      obtain ⟨props, hp, hd⟩ := getJSONSchemaFromType_struct_ok U fields d h
      subst hd
      intro x hx
      have hx' : x = .mk "object" none 0 0 (some props) ∨ x ∈ entriesNested props := by
        simpa [JSONSchemaDescriptor.nested] using hx
      rcases hx' with hx' | hx'
      · subst hx'
        exact invariant_object props
      · exact structFields_nested_invariant U fields [] props
          (by simp [entriesNested]) hp x hx'
    · intro x hx
      obtain ⟨hn, hinv⟩ := getJSONSchemaFromType_scalar_nested U k fields d hk h
      rw [hn] at hx
      simp only [List.mem_singleton] at hx
      subst hx
      exact hinv
theorem structFields_nested_invariant (U : UnicodeTables) :
    ∀ (fields : List (StructField GoType))
      (props props' : GoMap String (Option JSONSchemaDescriptor)),
    (∀ x ∈ entriesNested props, x.Invariant) →
    structFields U fields props = .ok props' →
    ∀ x ∈ entriesNested props', x.Invariant
  | [], props, props', hprops, h => by
    rw [structFields_nil] at h
    injection h with h
    subst h
    exact hprops
  | f :: rest, props, props', hprops, h => by
    rcases structFields_cons_ok U f rest props props' h with ⟨_, h'⟩ | ⟨_, d, hd, h'⟩
    · exact structFields_nested_invariant U rest props props' hprops h'
    · refine structFields_nested_invariant U rest _ props' ?_ h'
      intro x hx
      rcases entriesNested_set props (fieldName f) d x hx with hx1 | hx1
      · exact getJSONSchemaFromType_nested_invariant U f.Typ d hd x hx1
      · exact hprops x hx1
end

theorem structFields_filter (U : UnicodeTables) (fields : List (StructField GoType)) :
    ∀ props : GoMap String (Option JSONSchemaDescriptor),
    (∀ f ∈ fields, f.Name ≠ "") →
    structFields U fields props = structFields U (fields.filter (included U)) props := by
  induction fields with
  | nil => intro props _; rfl
  | cons f rest ih =>
    intro props hn
    have hn' : ∀ g ∈ rest, g.Name ≠ "" := fun g hg => hn g (List.mem_cons_of_mem _ hg)
    cases hin : included U f with
    | false =>
      rw [structFields_cons_excluded U f rest props
        (fieldName_ne_empty f (hn f (List.mem_cons_self _ _))) hin,
        List.filter_cons_of_neg (by simp [hin])]
      exact ih props hn'
    | true =>
      rw [List.filter_cons_of_pos hin, structFields_cons_included U f rest props hin,
        structFields_cons_included U f _ props hin]
      cases getJSONSchemaFromType U f.Typ with
      | ok d => exact ih _ hn'
      | err e => rfl
      | panic => rfl

theorem GoMap.length_set_le {κ ν : Type} [DecidableEq κ] (m : GoMap κ ν) (k : κ) (v : ν) :
    (GoMap.set m k v).length ≤ m.length + 1 := by
  induction m with
  | nil => simp [GoMap.set]
  | cons p rest ih =>
    obtain ⟨k₁, v₁⟩ := p
    by_cases h1 : k₁ = k
    · simp [GoMap.set, h1]
    · simp only [GoMap.set, h1, if_false, List.length_cons]
      omega

theorem structFields_length (U : UnicodeTables) (fields : List (StructField GoType)) :
    ∀ props props' : GoMap String (Option JSONSchemaDescriptor),
    structFields U fields props = .ok props' →
    props'.length ≤ props.length + (fields.filter (included U)).length := by
  induction fields with
  | nil =>
    intro props props' h
    rw [structFields_nil] at h
    injection h with h
    subst h
    simp
  | cons f rest ih =>
    intro props props' h
    rcases structFields_cons_ok U f rest props props' h with ⟨hex, h'⟩ | ⟨hin, d, _, h'⟩
    · rw [List.filter_cons_of_neg (by simp [hex])]
      exact ih props props' h'
    · rw [List.filter_cons_of_pos hin]
      have h1 := ih _ props' h'
      have h2 := GoMap.length_set_le props (fieldName f) (some d)
      simp only [List.length_cons]
      omega

mutual
theorem getJSONSchemaFromType_no_panic (U : UnicodeTables) :
    ∀ st : GoType, st.namesNonEmpty = true → getJSONSchemaFromType U st ≠ .panic
  | .mk k fields, hn => by
    by_cases hk : k = .Struct
    · subst hk
      have hn' : fieldsNamesNonEmpty fields = true := by
        simpa [GoType.namesNonEmpty] using hn
      have hloop := structFields_no_panic U fields [] hn'
      rw [getJSONSchemaFromType_struct_eq]
      cases hs : structFields U fields [] with
      | ok props => simp
      | err e => simp
      | panic => exact absurd hs hloop
    · cases k <;> first
        | exact absurd rfl hk
        | (simp only [getJSONSchemaFromType]
           exact fun h => Outcome.noConfusion h)
theorem structFields_no_panic (U : UnicodeTables) :
    ∀ (fields : List (StructField GoType))
      (props : GoMap String (Option JSONSchemaDescriptor)),
    fieldsNamesNonEmpty fields = true → structFields U fields props ≠ .panic
  | [], props, _ => by
    rw [structFields_nil]
    exact fun h => Outcome.noConfusion h
  | f :: rest, props, hn => by
    have hn' : f.Name ≠ "" ∧ f.Typ.namesNonEmpty = true ∧ fieldsNamesNonEmpty rest = true := by
      simpa [fieldsNamesNonEmpty, and_assoc] using hn
    cases hin : included U f with
    | false =>
      rw [structFields_cons_excluded U f rest props (fieldName_ne_empty f hn'.1) hin]
      exact structFields_no_panic U rest props hn'.2.2
    | true =>
      rw [structFields_cons_included U f rest props hin]
      have hf := getJSONSchemaFromType_no_panic U f.Typ hn'.2.1
      cases hd : getJSONSchemaFromType U f.Typ with
      | ok d => exact structFields_no_panic U rest _ hn'.2.2
      | err e => exact fun h => Outcome.noConfusion h
      | panic => exact absurd hd hf
end

theorem nested_self (d : JSONSchemaDescriptor) : d ∈ d.nested := by
  obtain ⟨t, e, lo, hi, props⟩ := d
  cases props with
  | none => simp [JSONSchemaDescriptor.nested]
  | some ps => simp [JSONSchemaDescriptor.nested]

theorem firstRune_of_ne_empty (s : String) (h : s ≠ "") : ∃ r, firstRune s = some r := by
  unfold firstRune
  cases hd : s.data with
  | nil => exact absurd (String.ext hd) h
  | cons c cs => exact ⟨c, rfl⟩

/-! ## Scalar kinds and unsupported kinds -/

/-- Claim C1: for every integer kind `GetJSONSchema` returns a descriptor of
type "integer" without enum and properties, with the bounds of the kind; for
uint64 the maximum is left at zero. -/
theorem GetJSONSchema_integer_kinds (U : UnicodeTables) (fields : List (StructField GoType)) :
    GetJSONSchema U (some (.mk .Int8 fields)) = .ok (.mk "integer" none (-128) 127 none) ∧
    GetJSONSchema U (some (.mk .Int16 fields)) = .ok (.mk "integer" none (-32768) 32767 none) ∧
    GetJSONSchema U (some (.mk .Int fields))
      = .ok (.mk "integer" none (-2147483648) 2147483647 none) ∧
    GetJSONSchema U (some (.mk .Int32 fields))
      = .ok (.mk "integer" none (-2147483648) 2147483647 none) ∧
    GetJSONSchema U (some (.mk .Int64 fields))
      = .ok (.mk "integer" none (-9223372036854775808) 9223372036854775807 none) ∧
    GetJSONSchema U (some (.mk .Uint8 fields)) = .ok (.mk "integer" none 0 255 none) ∧
    GetJSONSchema U (some (.mk .Uint16 fields)) = .ok (.mk "integer" none 0 65535 none) ∧
    GetJSONSchema U (some (.mk .Uint fields)) = .ok (.mk "integer" none 0 4294967295 none) ∧
    GetJSONSchema U (some (.mk .Uint32 fields)) = .ok (.mk "integer" none 0 4294967295 none) ∧
    GetJSONSchema U (some (.mk .Uint64 fields)) = .ok (.mk "integer" none 0 0 none) := by
  refine ⟨?_, ?_, ?_, ?_, ?_, ?_, ?_, ?_, ?_, ?_⟩ <;> rfl

/-- Claim C2, as the code behaves: for a value of boolean kind `GetJSONSchema`
returns a descriptor whose type is the string "bool", which is not the
JSON-schema type name "boolean" that the claim states. -/
theorem GetJSONSchema_bool_kind (U : UnicodeTables) (fields : List (StructField GoType)) :
    GetJSONSchema U (some (.mk .Bool fields)) = .ok (.mk "bool" none 0 0 none) ∧
    GetJSONSchema U (some (.mk .Bool fields)) ≠ .ok (.mk "boolean" none 0 0 none) := by
  refine ⟨rfl, ?_⟩
  intro h
  have h1 : getJSONSchemaFromType U (.mk .Bool fields) = .ok (.mk "bool" none 0 0 none) := rfl
  have h2 : getJSONSchemaFromType U (.mk .Bool fields) = .ok (.mk "boolean" none 0 0 none) := h
  rw [h1] at h2
  injection h2 with h3
  injection h3 with h4
  exact absurd h4 (by decide)

/-- Claim C3: for every value of kind string, float32 or float64
`GetJSONSchema` returns exactly the descriptor of type "string", without enum,
bounds and properties. -/
theorem GetJSONSchema_string_kinds (U : UnicodeTables) (fields : List (StructField GoType)) :
    GetJSONSchema U (some (.mk .String fields)) = .ok (.mk "string" none 0 0 none) ∧
    GetJSONSchema U (some (.mk .Float32 fields)) = .ok (.mk "string" none 0 0 none) ∧
    GetJSONSchema U (some (.mk .Float64 fields)) = .ok (.mk "string" none 0 0 none) :=
  ⟨rfl, rfl, rfl⟩

/-- Claim C4: for every type whose kind has no rule, `getJSONSchemaFromType`
returns an error and no descriptor, and the message of the error ends with the
name of the kind. -/
theorem getJSONSchemaFromType_unsupported (U : UnicodeTables) (st : GoType)
    (hk : st.Kind ∉ ruleKinds) :
    getJSONSchemaFromType U st = .err ("implement me! " ++ kindString st.Kind) := by
  obtain ⟨k, fields⟩ := st
  cases k <;> first | rfl | exact absurd (by simp [GoType.Kind, ruleKinds]) hk

/-- Witness for C4: a slice type has no rule and gives the error naming
"slice". -/
theorem getJSONSchemaFromType_unsupported_witness :
    (GoType.mk .Slice []).Kind ∉ ruleKinds ∧
    getJSONSchemaFromType latin1Tables (.mk .Slice []) = .err "implement me! slice" :=
  ⟨by decide, getJSONSchemaFromType_unsupported latin1Tables (.mk .Slice []) (by decide)⟩

/-! ## Struct types -/

/-- Claim C5: for a struct type whose fields have a declared identifier and
whose included fields all map successfully, `getJSONSchemaFromType` returns a
descriptor of type "object" with zero bounds and a properties map such that:
its keys are distinct and are exactly the serialized names of the included
fields; every entry is the descriptor of the type of an included field of that
name; the entry of a name is the descriptor of the last included field of that
name.  The struct `{Foo string; Bar uint8}` gives the descriptor of the test. -/
theorem getJSONSchemaFromType_struct_properties (U : UnicodeTables)
    (fields : List (StructField GoType))
    (hname : ∀ f ∈ fields, f.Name ≠ "")
    (hok : ∀ f ∈ fields, included U f = true →
      ∃ d, getJSONSchemaFromType U f.Typ = .ok d) :
    (∃ props, getJSONSchemaFromType U (.mk .Struct fields)
        = .ok (.mk "object" none 0 0 (some props)) ∧
      (GoMap.keys props).Nodup ∧
      (∀ k, k ∈ GoMap.keys props ↔ ∃ f ∈ fields, included U f = true ∧ fieldName f = k) ∧
      (∀ k v, GoMap.get props k = some v →
        ∃ f ∈ fields, included U f = true ∧ fieldName f = k ∧
          ∃ d, v = some d ∧ getJSONSchemaFromType U f.Typ = .ok d) ∧
      (∀ pre f post, fields = pre ++ f :: post → included U f = true →
        (∀ g ∈ post, included U g = true → fieldName g ≠ fieldName f) →
        ∃ d, getJSONSchemaFromType U f.Typ = .ok d ∧
          GoMap.get props (fieldName f) = some (some d))) ∧
    getJSONSchemaFromType U SimpleStructure
      = .ok (.mk "object" none 0 0 (some [("Foo", some (.mk "string" none 0 0 none)),
          ("Bar", some (.mk "integer" none 0 255 none))])) := by
  refine ⟨?_, rfl⟩
  obtain ⟨props, hp⟩ := structFields_succeeds U fields [] hname hok
  refine ⟨props, ?_, ?_, ?_, ?_, ?_⟩
  · rw [getJSONSchemaFromType_struct_eq, hp]
  · exact structFields_nodup U fields [] props hp (by simp [GoMap.keys])
  · intro k
    rw [structFields_keys U fields [] props hp k]
    simp [GoMap.keys]
  · intro k v hv
    rcases structFields_values U fields [] props hp k v hv with h1 | h1
    · simp [GoMap.get] at h1
    · exact h1
  · intro pre f post hf hin hpost
    subst hf
    exact structFields_last U pre f post [] props hp hin hpost

/-- Witness for C5: the hypotheses hold for the fields of `SimpleStructure`. -/
theorem getJSONSchemaFromType_struct_properties_witness :
    (∀ f ∈ SimpleStructure.Fields, f.Name ≠ "") ∧
    (∀ f ∈ SimpleStructure.Fields, included latin1Tables f = true →
      ∃ d, getJSONSchemaFromType latin1Tables f.Typ = .ok d) ∧
    ∃ props, getJSONSchemaFromType latin1Tables (.mk .Struct SimpleStructure.Fields)
        = .ok (.mk "object" none 0 0 (some props)) ∧
      ∀ k, k ∈ GoMap.keys props ↔
        ∃ f ∈ SimpleStructure.Fields, included latin1Tables f = true ∧ fieldName f = k := by
  have h1 : ∀ f ∈ SimpleStructure.Fields, f.Name ≠ "" := by
    intro f hf
    simp only [SimpleStructure, GoType.Fields, List.mem_cons, List.mem_singleton,
      List.not_mem_nil, or_false] at hf
    rcases hf with rfl | rfl <;> decide
  have h2 : ∀ f ∈ SimpleStructure.Fields, included latin1Tables f = true →
      ∃ d, getJSONSchemaFromType latin1Tables f.Typ = .ok d := by
    intro f hf _
    simp only [SimpleStructure, GoType.Fields, List.mem_cons, List.mem_singleton,
      List.not_mem_nil, or_false] at hf
    rcases hf with rfl | rfl <;> exact ⟨_, rfl⟩
  obtain ⟨⟨props, hp, _, hk, _⟩, _⟩ :=
    getJSONSchemaFromType_struct_properties latin1Tables SimpleStructure.Fields h1 h2
  exact ⟨h1, h2, props, hp, hk⟩

/-- Claim C6: when `getJSONSchemaFromType` succeeds on a struct type, the
serialized name of a field is a key of the properties map if and only if its
first rune is an upper-case letter.  A field `Foo` tagged `json:"foo"` is left
out, a field `foo` tagged `json:"Foo"` is kept under the key "Foo". -/
theorem struct_field_included_iff (U : UnicodeTables) (fields : List (StructField GoType))
    (d : JSONSchemaDescriptor)
    (h : getJSONSchemaFromType U (.mk .Struct fields) = .ok d) :
    (∃ props, d.Properties = some props ∧
      ∀ f ∈ fields, (fieldName f ∈ GoMap.keys props ↔
        ∃ r, firstRune (fieldName f) = some r ∧ unicodeIsUpper U r = true)) ∧
    getJSONSchemaFromType U (.mk .Struct [⟨"Foo", "foo", .mk .String []⟩])
      = .ok (.mk "object" none 0 0 (some [])) ∧
    getJSONSchemaFromType U (.mk .Struct [⟨"foo", "Foo", .mk .String []⟩])
      = .ok (.mk "object" none 0 0 (some [("Foo", some (.mk "string" none 0 0 none))])) := by
  refine ⟨?_, rfl, rfl⟩
  obtain ⟨props, hp, hd⟩ := getJSONSchemaFromType_struct_ok U fields d h
  subst hd
  refine ⟨props, rfl, ?_⟩
  intro f hf
  rw [structFields_keys U fields [] props hp (fieldName f), ← included_iff]
  constructor
  · rintro (h1 | ⟨g, _, hgi, hgk⟩)
    · simp [GoMap.keys] at h1
    · unfold included at hgi ⊢
      rw [hgk] at hgi
      exact hgi
  · intro hin
    exact Or.inr ⟨f, hf, hin, rfl⟩

/-- Witness for C6: the struct of the test `neasting structure` maps
successfully; its field `Foo`, tagged "TheName", and its field `ignored` are
told apart by the first rune of their serialized names. -/
theorem struct_field_included_iff_witness :
    getJSONSchemaFromType latin1Tables (.mk .Struct NestingStructure.Fields)
      = .ok (.mk "object" none 0 0 (some [("TheName", some (.mk "string" none 0 0 none)),
          ("Bar", some (.mk "object" none 0 0 (some
            [("Foo1", some (.mk "string" none 0 0 none)),
             ("Bar1", some (.mk "integer" none 0 255 none))])))])) ∧
    ∃ props, (JSONSchemaDescriptor.mk "object" none 0 0 (some
          [("TheName", some (.mk "string" none 0 0 none)),
           ("Bar", some (.mk "object" none 0 0 (some
            [("Foo1", some (.mk "string" none 0 0 none)),
             ("Bar1", some (.mk "integer" none 0 255 none))])))])).Properties = some props ∧
      ∀ f ∈ NestingStructure.Fields, (fieldName f ∈ GoMap.keys props ↔
        ∃ r, firstRune (fieldName f) = some r ∧ unicodeIsUpper latin1Tables r = true) :=
  ⟨rfl, (struct_field_included_iff latin1Tables NestingStructure.Fields _ rfl).1⟩

/-- Claim C7: the serialized name of a field is the part of its json tag before
the first comma when that part is not empty, and the declared identifier
otherwise: without tag, with an empty tag, with a tag that starts with a
comma.  A field `Foo` tagged `json:"TheName"` appears under "TheName" and not
under "Foo". -/
theorem fieldName_resolution (U : UnicodeTables) :
    (∀ field : StructField GoType,
      fieldName field = if tagName field.Tag ≠ "" then tagName field.Tag else field.Name) ∧
    (∀ (name : String) (t : GoType), fieldName ⟨name, "", t⟩ = name) ∧
    (∀ (name options : String) (t : GoType), fieldName ⟨name, "," ++ options, t⟩ = name) ∧
    (∀ t : GoType, fieldName ⟨"Foo", "TheName", t⟩ = "TheName") ∧
    (∀ t : GoType, fieldName ⟨"Foo", "TheName,omitempty", t⟩ = "TheName") ∧
    (∃ props, getJSONSchemaFromType U (.mk .Struct [⟨"Foo", "TheName", .mk .String []⟩])
        = .ok (.mk "object" none 0 0 (some props)) ∧
      GoMap.get props "TheName" = some (some (.mk "string" none 0 0 none)) ∧
      GoMap.get props "Foo" = none) := by
  refine ⟨fun field => fieldName_eq_tagName field, ?_, ?_, ?_, ?_, ?_⟩
  · intro name t
    rw [fieldName_eq_tagName]
    simp [tagName]
  · intro name options t
    rw [fieldName_eq_tagName]
    simp [tagName]
  · intro t; rfl
  · intro t; rfl
  · exact ⟨_, rfl, rfl, rfl⟩

/-- Claim C8: when mapping the type of an included field of a struct does not
succeed, `getJSONSchemaFromType` on the struct returns no descriptor; and when
the fields before that field have a declared identifier and are excluded or map
successfully, the struct ends exactly as the mapping of the type of that first
failing field ends, with its error (which may itself come from a nested
field). -/
theorem getJSONSchemaFromType_struct_first_failure (U : UnicodeTables)
    (fields : List (StructField GoType)) :
    (∀ f ∈ fields, included U f = true → (∀ d, getJSONSchemaFromType U f.Typ ≠ .ok d) →
      ∀ d, getJSONSchemaFromType U (.mk .Struct fields) ≠ .ok d) ∧
    (∀ pre f post, fields = pre ++ f :: post →
      (∀ g ∈ pre, g.Name ≠ "") →
      (∀ g ∈ pre, included U g = true → ∃ d, getJSONSchemaFromType U g.Typ = .ok d) →
      included U f = true →
      (∀ d, getJSONSchemaFromType U f.Typ ≠ .ok d) →
      getJSONSchemaFromType U (.mk .Struct fields) = getJSONSchemaFromType U f.Typ ∧
      (∀ e, getJSONSchemaFromType U f.Typ = .err e →
        getJSONSchemaFromType U (.mk .Struct fields) = .err e)) := by
  constructor
  · intro f hf hin hfail d hd
    obtain ⟨props, hp, _⟩ := getJSONSchemaFromType_struct_ok U fields d hd
    obtain ⟨d', hd'⟩ := structFields_ok_all U fields [] props hp f hf hin
    exact hfail d' hd'
  · intro pre f post hfields hname hpre hin hfail
    subst hfields
    have key : getJSONSchemaFromType U (.mk .Struct (pre ++ f :: post))
        = getJSONSchemaFromType U f.Typ := by
      have hloop := structFields_first_failure U pre f post [] hname hpre hin
      rw [getJSONSchemaFromType_struct_eq]
      cases hd : getJSONSchemaFromType U f.Typ with
      | ok d => exact absurd hd (hfail d)
      | err e => rw [hloop.1 e hd]
      | panic => rw [hloop.2 hd]
    refine ⟨key, ?_⟩
    intro e he
    rw [key, he]

/-- Witness for C8: in `struct { Foo string; skipped []T; In struct { Deep
struct { Xs []T } }; Later map }` the first included field that fails is `In`,
two levels above the slice, and the struct fails with the error of the slice,
not with that of the later map. -/
theorem getJSONSchemaFromType_struct_first_failure_witness :
    getJSONSchemaFromType latin1Tables (.mk .Struct
        [⟨"Foo", "", .mk .String []⟩, ⟨"skipped", "", .mk .Slice []⟩,
          ⟨"In", "", .mk .Struct [⟨"Deep", "", .mk .Struct [⟨"Xs", "", .mk .Slice []⟩]⟩]⟩,
          ⟨"Later", "", .mk .Map []⟩]) = .err "implement me! slice" := by
  have h := (getJSONSchemaFromType_struct_first_failure latin1Tables
    [⟨"Foo", "", .mk .String []⟩, ⟨"skipped", "", .mk .Slice []⟩,
      ⟨"In", "", .mk .Struct [⟨"Deep", "", .mk .Struct [⟨"Xs", "", .mk .Slice []⟩]⟩]⟩,
      ⟨"Later", "", .mk .Map []⟩]).2
    [⟨"Foo", "", .mk .String []⟩, ⟨"skipped", "", .mk .Slice []⟩]
    ⟨"In", "", .mk .Struct [⟨"Deep", "", .mk .Struct [⟨"Xs", "", .mk .Slice []⟩]⟩]⟩
    [⟨"Later", "", .mk .Map []⟩]
    rfl
    (by
      intro g hg
      simp only [List.mem_cons, List.mem_singleton, List.not_mem_nil, or_false] at hg
      rcases hg with rfl | rfl <;> decide)
    (by
      intro g hg hi
      simp only [List.mem_cons, List.mem_singleton, List.not_mem_nil, or_false] at hg
      rcases hg with rfl | rfl
      · exact ⟨_, rfl⟩
      · exact absurd hi (by decide))
    (by decide)
    (by
      intro d hd
      have he : getJSONSchemaFromType latin1Tables
          (StructField.Typ ⟨"In", "", .mk .Struct
            [⟨"Deep", "", .mk .Struct [⟨"Xs", "", .mk .Slice []⟩]⟩]⟩)
          = .err "implement me! slice" := rfl
      rw [he] at hd
      exact Outcome.noConfusion hd)
  exact h.2 "implement me! slice" rfl

/-- Claim C9: when `getJSONSchemaFromType` succeeds, every key of every
properties map of the result, at every nesting level, begins with an upper-case
letter; so a name that does not begin with one, such as "ignored", is a key at
no level, and the nested type of the test gives exactly `TheName` and `Bar`
with `Foo1` and `Bar1`. -/
theorem getJSONSchemaFromType_keys_upper (U : UnicodeTables) (st : GoType)
    (d : JSONSchemaDescriptor) (h : getJSONSchemaFromType U st = .ok d) :
    (∀ x ∈ d.allKeys, ∃ r, firstRune x = some r ∧ unicodeIsUpper U r = true) ∧
    (∀ x, (∀ r, firstRune x = some r → unicodeIsUpper U r = false) → x ∉ d.allKeys) ∧
    "ignored" ∉ d.allKeys ∧
    getJSONSchemaFromType U NestingStructure
      = .ok (.mk "object" none 0 0 (some [("TheName", some (.mk "string" none 0 0 none)),
          ("Bar", some (.mk "object" none 0 0 (some
            [("Foo1", some (.mk "string" none 0 0 none)),
             ("Bar1", some (.mk "integer" none 0 255 none))])))])) := by
  have key := getJSONSchemaFromType_allKeys U st d h
  have gen : ∀ x, (∀ r, firstRune x = some r → unicodeIsUpper U r = false) →
      x ∉ d.allKeys := by
    intro x hx hmem
    obtain ⟨r, hr, hu⟩ := key x hmem
    rw [hx r hr] at hu
    exact Bool.noConfusion hu
  refine ⟨key, gen, ?_, rfl⟩
  apply gen
  intro r hr
  have h0 : firstRune "ignored" = some 'i' := rfl
  rw [h0] at hr
  injection hr with hr
  subst hr
  rfl

/-- Witness for C9: the nested type of the test maps successfully, and the keys
of its descriptor at both levels begin with an upper-case letter. -/
theorem getJSONSchemaFromType_keys_upper_witness :
    (∃ d, getJSONSchemaFromType latin1Tables NestingStructure = .ok d ∧
      d.allKeys = ["TheName", "Bar", "Foo1", "Bar1"] ∧
      (∀ x ∈ d.allKeys, ∃ r, firstRune x = some r ∧ unicodeIsUpper latin1Tables r = true) ∧
      "ignored" ∉ d.allKeys) :=
  ⟨_, rfl, rfl,
    (getJSONSchemaFromType_keys_upper latin1Tables NestingStructure _ rfl).1,
    (getJSONSchemaFromType_keys_upper latin1Tables NestingStructure _ rfl).2.2.1⟩

/-! ## Document assembly -/

/-- Claim C10: from `New(title, version)`, `AddJSONEndpoint(method, path, nil)`
and then `AddResponse(status, s)` on the endpoint it returns both complete
without panic, and the document then equals the one of the test: version
"3.0.0", the title and version, no servers, and under the path and the
lower-cased method one operation with empty summary and description whose
single response, under the status code, has an empty description and the
schema `s` under "application/json". -/
theorem New_AddJSONEndpoint_AddResponse (U : UnicodeTables) (title version method path : String)
    (status : Int) (s : Option JSONSchemaDescriptor) :
    ∃ m₁ endpoint m₂,
      AddJSONEndpoint U (New title version) method path none = some (m₁, endpoint) ∧
      AddResponse m₁ endpoint status s = some m₂ ∧
      m₂.deref =
        { OpenAPI := "3.0.0"
          Info := some { Title := title, Description := "", Version := version }
          Servers := none
          Paths := some (some [(path, some [(stringsToLower U method, some
            { Summary := ""
              Description := ""
              Responses := some [(status, some
                { Description := ""
                  Content := some [("application/json", some { Schema := s })] })] })])]) } :=
  ⟨_, _, _, rfl, rfl, rfl⟩

/-- Claim C11: when an operation has been registered by `AddJSONEndpoint`,
calling `AddJSONEndpoint` again with the same method and path leaves the
memory, hence the document, unchanged and returns the same endpoint; this holds
for every document in which the operation exists with a response map, so also
after responses have been attached; a response attached through the endpoint is
kept by the later call and is visible in the document.  For every document in
which the operation exists at all, the call returns the endpoint of that
operation and changes at most its response map from nil to empty: the paths,
the other operations, the summary, the description and the responses of the
operation, and the serialized document are unchanged. -/
theorem AddJSONEndpoint_again (U : UnicodeTables) (m : Memory)
    (method path : String) (q q' : Option QueryDescriptor) (m₁ : Memory) (e₁ : Endpoint)
    (h : AddJSONEndpoint U m method path q = some (m₁, e₁)) :
    AddJSONEndpoint U m₁ method path q' = some (m₁, e₁) ∧
    (∀ (m' : Memory) (p : Nat) (api : OpenAPIAPI),
      m'.oas.operation path (stringsToLower U method) = some p →
      m'.apis.get? p = some api → api.Responses ≠ none →
      AddJSONEndpoint U m' method path q' = some (m', Endpoint.mk (some p))) ∧
    (∀ (status : Int) (s : Option JSONSchemaDescriptor),
      ∃ m₂, AddResponse m₁ e₁ status s = some m₂ ∧
        AddJSONEndpoint U m₂ method path q' = some (m₂, e₁) ∧
        ∃ api, m₂.deref.operation path (stringsToLower U method) = some api ∧
          api.jsonSchema status = some s) ∧
    (∀ (m' : Memory) (p : Nat) (api : OpenAPIAPI),
      m'.oas.operation path (stringsToLower U method) = some p →
      m'.apis.get? p = some api →
      ∃ m₂ api₂, AddJSONEndpoint U m' method path q' = some (m₂, Endpoint.mk (some p)) ∧
        m₂.oas = m'.oas ∧ (∀ p', p' ≠ p → m₂.apis.get? p' = m'.apis.get? p') ∧
        m₂.apis.get? p = some api₂ ∧
        api₂.Summary = api.Summary ∧ api₂.Description = api.Description ∧
        (∀ status, api₂.response status = api.response status) ∧
        m₂.deref.marshal = m'.deref.marshal) := by
  have general : ∀ (m' : Memory) (p : Nat) (api : OpenAPIAPI),
      m'.oas.operation path (stringsToLower U method) = some p →
      m'.apis.get? p = some api → api.Responses ≠ none →
      AddJSONEndpoint U m' method path q' = some (m', Endpoint.mk (some p)) := by
    intro m' p api hop hapi hr
    rw [AddJSONEndpoint_existing U m' method path q' p api hop hapi]
    rcases hrs : api.Responses with _ | r
    · exact absurd hrs hr
    · rfl
  obtain ⟨p, api₁, he, hop, hapi, hr⟩ := AddJSONEndpoint_registers U m method path q m₁ e₁ h
  subst he
  refine ⟨general m₁ p api₁ hop hapi hr, general, ?_,
    fun m' p' api' hop' hapi' => AddJSONEndpoint_existing_spec U m' method path q' p' api'
      hop' hapi'⟩
  intro status s
  obtain ⟨p', api', responses, he', hapi', hrs, hadd⟩ :=
    AddResponse_of_bound m₁ (Endpoint.mk (some p)) status s ⟨p, api₁, rfl, hapi, hr⟩
  injection he' with he'
  subst he'
  have hget : (m₁.apis.set p
      { api' with Responses := some (attachResponse responses status s) }).get? p =
      some { api' with Responses := some (attachResponse responses status s) } :=
    get?_set_self _ _ _ _ hapi'
  refine ⟨_, hadd, general _ p _ hop hget (by simp),
    { api' with Responses := some (attachResponse responses status s) }, ?_, ?_⟩
  · rw [deref_operation]
    show (m₁.oas.operation path (stringsToLower U method)).bind _ = _
    rw [hop]
    exact hget
  · exact jsonSchema_attachResponse _ _ _ _ _

/-- Witness for C11: registering `GET /foo` on a new document and registering
it again returns the same memory and the same endpoint. -/
theorem AddJSONEndpoint_again_witness :
    ∃ m₁ e₁, AddJSONEndpoint latin1Tables (New "myTitle" "2.2.2") "GET" "/foo" none
        = some (m₁, e₁) ∧
      AddJSONEndpoint latin1Tables m₁ "GET" "/foo" none = some (m₁, e₁) :=
  ⟨_, _, rfl, (AddJSONEndpoint_again latin1Tables (New "myTitle" "2.2.2")
    "GET" "/foo" none none _ _ rfl).1⟩

/-- Claim C12: on a well-formed memory `AddJSONEndpoint` completes, keeps the
memory well formed, leaves `OpenAPI`, `Info` and `Servers` unchanged and leaves
the operation stored under every other path, or under the same path and another
lower-cased method, present and unchanged; registering `GET /foo` and then
`POST /foo` on a new document leaves both "get" and "post" under "/foo". -/
theorem AddJSONEndpoint_frame (U : UnicodeTables) (m : Memory) (method path : String)
    (q : Option QueryDescriptor) (hwf : m.WellFormed) :
    (∃ m₁ e₁, AddJSONEndpoint U m method path q = some (m₁, e₁) ∧ m₁.WellFormed ∧
      m₁.deref.OpenAPI = m.deref.OpenAPI ∧ m₁.deref.Info = m.deref.Info ∧
      m₁.deref.Servers = m.deref.Servers ∧
      ∀ path' method', path' ≠ path ∨ method' ≠ stringsToLower U method →
        m₁.deref.operation path' method' = m.deref.operation path' method') ∧
    (∀ title version : String, ∃ m₁ e₁ m₂ e₂,
      AddJSONEndpoint U (New title version) "GET" "/foo" none = some (m₁, e₁) ∧
      AddJSONEndpoint U m₁ "POST" "/foo" none = some (m₂, e₂) ∧
      m₂.deref.operation "/foo" "get"
        = some { Summary := "", Description := "", Responses := some [] } ∧
      m₂.deref.operation "/foo" "post"
        = some { Summary := "", Description := "", Responses := some [] }) := by
  constructor
  · obtain ⟨m₁, e₁, h⟩ := AddJSONEndpoint_total U m method path q hwf
    obtain ⟨h1, h2, h3⟩ := AddJSONEndpoint_header U m method path q m₁ e₁ h
    exact ⟨m₁, e₁, h, AddJSONEndpoint_wellFormed U m method path q m₁ e₁ hwf h, h1, h2, h3,
      AddJSONEndpoint_other_operations U m method path q m₁ e₁ hwf h⟩
  · intro title version
    exact ⟨_, _, _, _, rfl, rfl, rfl, rfl⟩

/-- Witness for C12: a new document is well formed, and after `GET /foo` is
registered on it, registering `POST /foo` leaves the operation under "get"
as it was. -/
theorem AddJSONEndpoint_frame_witness :
    (New "myTitle" "2.2.2").WellFormed ∧
    ∃ m₁ e₁, AddJSONEndpoint latin1Tables (New "myTitle" "2.2.2") "GET" "/foo" none
        = some (m₁, e₁) ∧
      ∀ path' method', path' ≠ "/foo" ∨ method' ≠ stringsToLower latin1Tables "GET" →
        m₁.deref.operation path' method'
          = (New "myTitle" "2.2.2").deref.operation path' method' := by
  obtain ⟨m₁, e₁, h, _, _, _, _, hframe⟩ :=
    (AddJSONEndpoint_frame latin1Tables (New "myTitle" "2.2.2") "GET" "/foo" none
      (New_wellFormed _ _)).1
  exact ⟨New_wellFormed _ _, m₁, e₁, h, hframe⟩

/-- Claim C13: on a well-formed memory, after `AddJSONEndpoint(method, path)`
the document has an operation under the path and the lower-cased method, the
one the returned endpoint points to; and when lower-casing the lower-cased
method changes nothing, as is the case for every ASCII method and for every
method when the case table is idempotent, `AddJSONEndpoint(lowercase(method),
path)` does exactly the same and returns the same endpoint, before or after
the first call.  "GET", "Get" and "get" all give the key "get". -/
theorem AddJSONEndpoint_lowercase (U : UnicodeTables) (m : Memory) (method path : String)
    (q : Option QueryDescriptor) (hwf : m.WellFormed) :
    (∃ m₁ p api, AddJSONEndpoint U m method path q = some (m₁, Endpoint.mk (some p)) ∧
      m₁.oas.operation path (stringsToLower U method) = some p ∧
      m₁.apis.get? p = some api ∧
      m₁.deref.operation path (stringsToLower U method) = some api ∧
      (stringsToLower U (stringsToLower U method) = stringsToLower U method →
        AddJSONEndpoint U m (stringsToLower U method) path q
          = some (m₁, Endpoint.mk (some p)) ∧
        AddJSONEndpoint U m₁ (stringsToLower U method) path q
          = some (m₁, Endpoint.mk (some p)) ∧
        AddJSONEndpoint U m₁ method path q = some (m₁, Endpoint.mk (some p)))) ∧
    ((∀ c ∈ method.data, c.toNat ≤ 0x7F) →
      stringsToLower U (stringsToLower U method) = stringsToLower U method) ∧
    ((∀ r, unicodeToLower U (unicodeToLower U r) = unicodeToLower U r) →
      stringsToLower U (stringsToLower U method) = stringsToLower U method) ∧
    stringsToLower U "GET" = "get" ∧ stringsToLower U "Get" = "get" ∧
    stringsToLower U "get" = "get" := by
  refine ⟨?_, ?_, ?_, rfl, rfl, rfl⟩
  · obtain ⟨m₁, e₁, h⟩ := AddJSONEndpoint_total U m method path q hwf
    obtain ⟨p, api₁, he, hop, hapi, hr⟩ :=
      AddJSONEndpoint_registers U m method path q m₁ e₁ h
    subst he
    refine ⟨m₁, p, api₁, h, hop, hapi, ?_, ?_⟩
    · rw [deref_operation, hop]
      exact hapi
    · intro hidem
      have hagain : AddJSONEndpoint U m₁ method path q = some (m₁, Endpoint.mk (some p)) := by
        rw [AddJSONEndpoint_existing U m₁ method path q p api₁ hop hapi]
        rcases hrs : api₁.Responses with _ | r
        · exact absurd hrs hr
        · rfl
      refine ⟨?_, ?_, hagain⟩
      · rw [AddJSONEndpoint_of_lower_idem U m method path q hidem]
        exact h
      · rw [AddJSONEndpoint_of_lower_idem U m₁ method path q hidem]
        exact hagain
  · intro hascii
    exact stringsToLower_idem U method
      (fun c hc => unicodeToLower_ascii_idem U c (hascii c hc))
  · intro hidem
    exact stringsToLower_idem U method (fun c _ => hidem c)

/-- Witness for C13: on a new document "GET" and "get" register and address
the same operation, stored under "get". -/
theorem AddJSONEndpoint_lowercase_witness :
    (New "myTitle" "2.2.2").WellFormed ∧
    stringsToLower latin1Tables (stringsToLower latin1Tables "GET")
      = stringsToLower latin1Tables "GET" ∧
    ∃ m₁ p, AddJSONEndpoint latin1Tables (New "myTitle" "2.2.2") "GET" "/foo" none
        = some (m₁, Endpoint.mk (some p)) ∧
      m₁.oas.operation "/foo" "get" = some p ∧
      AddJSONEndpoint latin1Tables (New "myTitle" "2.2.2") "get" "/foo" none
        = some (m₁, Endpoint.mk (some p)) ∧
      AddJSONEndpoint latin1Tables m₁ "get" "/foo" none
        = some (m₁, Endpoint.mk (some p)) := by
  obtain ⟨m₁, p, api, h, hop, _, _, hidem⟩ :=
    (AddJSONEndpoint_lowercase latin1Tables (New "myTitle" "2.2.2") "GET" "/foo" none
      (New_wellFormed _ _)).1
  exact ⟨New_wellFormed _ _, rfl, m₁, p, h, hop, (hidem rfl).1, (hidem rfl).2.1⟩

/-- Claim C14: through an endpoint bound to an operation, `AddResponse(status,
a)` followed by `AddResponse(status, b)` both complete, leave `b` as the schema
of the status code under "application/json", and leave the same memory, hence
the same document, as `AddResponse(status, b)` alone. -/
theorem AddResponse_last_write_wins (m : Memory) (endpoint : Endpoint) (status : Int)
    (a b : Option JSONSchemaDescriptor) (hb : endpoint.Bound m) :
    ∃ m₁ m₂, AddResponse m endpoint status a = some m₁ ∧
      AddResponse m₁ endpoint status b = some m₂ ∧
      AddResponse m endpoint status b = some m₂ ∧
      ∃ p api, endpoint.responses = some p ∧ m₂.apis.get? p = some api ∧
        api.jsonSchema status = some b := by
  obtain ⟨p, api, responses, he, hapi, hrs, hadd⟩ :=
    AddResponse_of_bound m endpoint status a hb
  have hadd_b := AddResponse_eq m endpoint status b p api responses he hapi hrs
  have hget : (m.apis.set p
      { api with Responses := some (attachResponse responses status a) }).get? p =
      some { api with Responses := some (attachResponse responses status a) } :=
    get?_set_self _ _ _ _ hapi
  have hadd₂ := AddResponse_eq
    (Memory.mk m.oas (m.apis.set p
      { api with Responses := some (attachResponse responses status a) }))
    endpoint status b p
    { api with Responses := some (attachResponse responses status a) }
    (attachResponse responses status a) he hget rfl
  refine ⟨_, _, hadd, hadd₂, ?_, p,
    { api with
      Responses := some (attachResponse (attachResponse responses status a) status b) },
    he, ?_, ?_⟩
  · rw [hadd_b]
    simp only [List.set_set, attachResponse_attachResponse]
  · exact get?_set_self _ _ _ _ hget
  · exact jsonSchema_attachResponse _ _ _ _ _

/-- Witness for C14: the endpoint that `AddJSONEndpoint` returns on a new
document is bound, and attaching the schema of a string and then no schema
under 200 leaves what attaching no schema alone leaves. -/
theorem AddResponse_last_write_wins_witness :
    ∃ m e, AddJSONEndpoint latin1Tables (New "myTitle" "2.2.2") "GET" "/foo" none
        = some (m, e) ∧ e.Bound m ∧
      ∃ m₁ m₂, AddResponse m e 200 (some (.mk "string" none 0 0 none)) = some m₁ ∧
        AddResponse m₁ e 200 none = some m₂ ∧ AddResponse m e 200 none = some m₂ := by
  obtain ⟨m, e, h⟩ := AddJSONEndpoint_total latin1Tables (New "myTitle" "2.2.2") "GET" "/foo"
    none (New_wellFormed _ _)
  have hb := AddJSONEndpoint_bound _ _ _ _ _ _ _ h
  obtain ⟨m₁, m₂, h1, h2, h3, _⟩ :=
    AddResponse_last_write_wins m e 200 (some (.mk "string" none 0 0 none)) none hb
  exact ⟨m, e, h, hb, m₁, m₂, h1, h2, h3⟩

/-- Claim C15: through an endpoint bound to an operation, `AddResponse(status,
s)` completes and leaves the paths of the document and every other operation
unchanged; in the operation it keeps the summary, the description and the
response of every other status code; and in the response of the status code it
keeps the description and the content of every other media type, the content
of "application/json" being the schema `s`. -/
theorem AddResponse_frame (m : Memory) (endpoint : Endpoint) (status : Int)
    (s : Option JSONSchemaDescriptor) (hb : endpoint.Bound m) :
    ∃ p api m₁ api₁, endpoint.responses = some p ∧ m.apis.get? p = some api ∧
      AddResponse m endpoint status s = some m₁ ∧ m₁.apis.get? p = some api₁ ∧
      m₁.oas = m.oas ∧
      (∀ p', p' ≠ p → m₁.apis.get? p' = m.apis.get? p') ∧
      (∀ path method, m.oas.operation path method ≠ some p →
        m₁.deref.operation path method = m.deref.operation path method) ∧
      api₁.Summary = api.Summary ∧ api₁.Description = api.Description ∧
      (∀ other, other ≠ status →
        api₁.Responses.bind (fun rs => GoMap.get rs other)
          = api.Responses.bind (fun rs => GoMap.get rs other)) ∧
      (∀ other, other ≠ status → api₁.response other = api.response other) ∧
      ∃ r₁, api₁.response status = some r₁ ∧
        r₁.Description = (match api.response status with
          | some r => r.Description
          | none => "") ∧
        (∀ mediaType, mediaType ≠ "application/json" →
          r₁.content mediaType = (api.response status).bind (fun r => r.content mediaType)) ∧
        r₁.content "application/json" = some { Schema := s } := by
  obtain ⟨p, api, responses, he, hapi, hrs, hadd⟩ :=
    AddResponse_of_bound m endpoint status s hb
  have hget : (m.apis.set p
      { api with Responses := some (attachResponse responses status s) }).get? p =
      some { api with Responses := some (attachResponse responses status s) } :=
    get?_set_self _ _ _ _ hapi
  have hapi_eq : api = OpenAPIAPI.mk api.Summary api.Description (some responses) := by
    cases api
    simp only at hrs
    subst hrs
    rfl
  refine ⟨p, api, _, { api with Responses := some (attachResponse responses status s) },
    he, hapi, hadd, hget, rfl, ?_, ?_, rfl, rfl, ?_, ?_,
    OpenAPIResponse.mk (responseOrNew responses status).Description
      (some (GoMap.set (contentOrNew (responseOrNew responses status)) "application/json"
        (some (OpenAPIResponseContent.mk s)))), ?_, ?_, ?_, ?_⟩
  · intro p' hp'
    exact get?_set_other _ _ _ _ hp'
  · intro path method hne
    rw [deref_operation, deref_operation]
    show (m.oas.operation path method).bind _ = _
    rcases hop : m.oas.operation path method with _ | p'
    · rfl
    · simp only [Option.some_bind]
      exact get?_set_other _ _ _ _ (fun e => hne (by rw [hop, e]))
  · intro other hother
    rw [hrs]
    simp only [Option.some_bind]
    exact attachResponse_get_ne _ _ _ _ hother
  · intro other hother
    rw [response_attachResponse_ne _ _ _ _ _ _ hother, ← hapi_eq]
  · exact response_attachResponse_self _ _ _ _ _
  · simp only []
    rw [responseOrNew_description api.Summary api.Description, ← hapi_eq]
  · intro mediaType hmt
    simp only [OpenAPIResponse.content]
    rw [GoMap.get_set_ne _ _ _ _ (fun e => hmt e.symm),
      contentOrNew_get api.Summary api.Description, ← hapi_eq]
    rfl
  · simp [OpenAPIResponse.content, GoMap.get_set_self]

/-- Witness for C15: on a new document where `GET /foo` has the schema of a
string under 200, the endpoint is bound and attaching no schema under 404
leaves the response of 200 as it was. -/
theorem AddResponse_frame_witness :
    ∃ m e m₁, AddJSONEndpoint latin1Tables (New "myTitle" "2.2.2") "GET" "/foo" none
        = some (m, e) ∧
      AddResponse m e 200 (some (.mk "string" none 0 0 none)) = some m₁ ∧ e.Bound m₁ ∧
      ∃ p api m₂ api₂, e.responses = some p ∧ m₁.apis.get? p = some api ∧
        AddResponse m₁ e 404 none = some m₂ ∧ m₂.apis.get? p = some api₂ ∧
        api₂.response 200 = api.response 200 := by
  obtain ⟨m, e, h⟩ := AddJSONEndpoint_total latin1Tables (New "myTitle" "2.2.2") "GET" "/foo"
    none (New_wellFormed _ _)
  have hb := AddJSONEndpoint_bound _ _ _ _ _ _ _ h
  obtain ⟨_, _, _, _, _, _, h1⟩ :=
    AddResponse_of_bound m e 200 (some (.mk "string" none 0 0 none)) hb
  have hb₁ := AddResponse_bound _ _ _ _ _ hb h1
  obtain ⟨p, api, m₂, api₂, he, hapi, hadd, hapi₂, _, _, _, _, _, _, hother, _⟩ :=
    AddResponse_frame _ e 404 none hb₁
  exact ⟨m, e, _, h, h1, hb₁, p, api, m₂, api₂, he, hapi, hadd, hapi₂,
    hother 200 (by decide)⟩

/-! ## Invariants of the mapping -/

/-- Counterexample for C16: the descriptor returned for a uint64 has type
"integer" and both bounds zero, so for it neither bound is set although the
type is "integer". -/
theorem uint64_descriptor_not_SpecInvariant :
    ∃ d, getJSONSchemaFromType latin1Tables (.mk .Uint64 []) = .ok d ∧ d ∈ d.nested ∧
      d.Typ = "integer" ∧ d.Minimum = 0 ∧ d.Maximum = 0 ∧ ¬ d.SpecInvariant :=
  ⟨.mk "integer" none 0 0 none, rfl, nested_self _, rfl, rfl, rfl,
    fun h => (h.1.mpr rfl).elim (fun h0 => h0 rfl) (fun h0 => h0 rfl)⟩

/-- Claim C16, amended: every descriptor returned by a successful call of
`getJSONSchemaFromType`, and every descriptor nested in its properties,
satisfies: a bound that is not zero comes with the type "integer"; a descriptor
of type "integer" has a maximum that is not zero unless it is the descriptor of
uint64, whose bounds are both zero; and the properties are not nil if and only
if the type is "object". -/
theorem getJSONSchemaFromType_invariant (U : UnicodeTables) (st : GoType)
    (d : JSONSchemaDescriptor) (h : getJSONSchemaFromType U st = .ok d) :
    d ∈ d.nested ∧ ∀ x ∈ d.nested, x.Invariant :=
  ⟨nested_self d, getJSONSchemaFromType_nested_invariant U st d h⟩

/-- Witness for C16: the nested type of the test maps successfully and its five
descriptors satisfy the invariant. -/
theorem getJSONSchemaFromType_invariant_witness :
    ∃ d, getJSONSchemaFromType latin1Tables NestingStructure = .ok d ∧
      d.nested.length = 5 ∧ ∀ x ∈ d.nested, x.Invariant :=
  ⟨_, rfl, rfl, (getJSONSchemaFromType_invariant latin1Tables NestingStructure _ rfl).2⟩

/-- Claim C18: for a struct type whose fields have a declared identifier,
`getJSONSchemaFromType` ends on the struct exactly as on the struct without its
excluded fields (same descriptor or same error); so it succeeds as soon as the
included fields map successfully, whatever the types of the excluded fields,
as for `struct { Foo string; hidden []T }`. -/
theorem getJSONSchemaFromType_ignores_excluded (U : UnicodeTables)
    (fields : List (StructField GoType)) (hname : ∀ f ∈ fields, f.Name ≠ "") :
    getJSONSchemaFromType U (.mk .Struct fields)
      = getJSONSchemaFromType U (.mk .Struct (fields.filter (included U))) ∧
    ((∀ f ∈ fields, included U f = true → ∃ d, getJSONSchemaFromType U f.Typ = .ok d) →
      ∃ d, getJSONSchemaFromType U (.mk .Struct fields) = .ok d) ∧
    getJSONSchemaFromType U
        (.mk .Struct [⟨"Foo", "", .mk .String []⟩, ⟨"hidden", "", .mk .Slice []⟩])
      = .ok (.mk "object" none 0 0 (some [("Foo", some (.mk "string" none 0 0 none))])) := by
  refine ⟨?_, ?_, rfl⟩
  · rw [getJSONSchemaFromType_struct_eq, getJSONSchemaFromType_struct_eq,
      structFields_filter U fields [] hname]
  · intro hok
    obtain ⟨props, hp⟩ := structFields_succeeds U fields [] hname hok
    exact ⟨_, by rw [getJSONSchemaFromType_struct_eq, hp]⟩

/-- Witness for C18: the nested type of the test, whose field `ignored` is
excluded, maps as the struct with the fields `Foo` and `Bar` only. -/
theorem getJSONSchemaFromType_ignores_excluded_witness :
    (∀ f ∈ NestingStructure.Fields, f.Name ≠ "") ∧
    NestingStructure.Fields.filter (included latin1Tables)
      = [⟨"Foo", "TheName", .mk .String []⟩, ⟨"Bar", "", NestedStructure⟩] ∧
    getJSONSchemaFromType latin1Tables (.mk .Struct NestingStructure.Fields)
      = getJSONSchemaFromType latin1Tables
          (.mk .Struct (NestingStructure.Fields.filter (included latin1Tables))) := by
  have h1 : ∀ f ∈ NestingStructure.Fields, f.Name ≠ "" := by
    intro f hf
    simp only [NestingStructure, GoType.Fields, List.mem_cons, List.mem_singleton,
      List.not_mem_nil, or_false] at hf
    rcases hf with rfl | rfl | rfl <;> decide
  exact ⟨h1, rfl,
    (getJSONSchemaFromType_ignores_excluded latin1Tables NestingStructure.Fields h1).1⟩

/-- Claim C19: when `getJSONSchemaFromType` succeeds on a struct, the keys of
the properties are distinct, so a name to which several included fields resolve
has a single entry, and this entry holds the descriptor of the last included
field of that name; the number of properties is at most the number of included
fields, and is smaller for `struct { A string (tagged json:"X"); X uint8 }`,
whose two included fields give the one property "X" of the uint8. -/
theorem getJSONSchemaFromType_duplicate_names (U : UnicodeTables)
    (fields : List (StructField GoType)) (d : JSONSchemaDescriptor)
    (h : getJSONSchemaFromType U (.mk .Struct fields) = .ok d) :
    (∃ props, d.Properties = some props ∧ (GoMap.keys props).Nodup ∧
      props.length ≤ (fields.filter (included U)).length ∧
      ∀ pre f post, fields = pre ++ f :: post → included U f = true →
        (∀ g ∈ post, included U g = true → fieldName g ≠ fieldName f) →
        (GoMap.keys props).count (fieldName f) = 1 ∧
        ∃ d', getJSONSchemaFromType U f.Typ = .ok d' ∧
          GoMap.get props (fieldName f) = some (some d')) ∧
    getJSONSchemaFromType U
        (.mk .Struct [⟨"A", "X", .mk .String []⟩, ⟨"X", "", .mk .Uint8 []⟩])
      = .ok (.mk "object" none 0 0 (some [("X", some (.mk "integer" none 0 255 none))])) ∧
    ([⟨"A", "X", .mk .String []⟩, ⟨"X", "", .mk .Uint8 []⟩] :
      List (StructField GoType)).filter (included U)
      = [⟨"A", "X", .mk .String []⟩, ⟨"X", "", .mk .Uint8 []⟩] := by
  refine ⟨?_, rfl, rfl⟩
  obtain ⟨props, hp, hd⟩ := getJSONSchemaFromType_struct_ok U fields d h
  subst hd
  have hnd := structFields_nodup U fields [] props hp (by simp [GoMap.keys])
  refine ⟨props, rfl, hnd, ?_, ?_⟩
  · have := structFields_length U fields [] props hp
    simpa using this
  · intro pre f post hf hin hpost
    subst hf
    obtain ⟨d', hd', hget⟩ := structFields_last U pre f post [] props hp hin hpost
    refine ⟨?_, d', hd', hget⟩
    exact List.count_eq_one_of_mem hnd
      ((GoMap.mem_keys_iff props (fieldName f)).mpr ⟨_, hget⟩)

/-- Witness for C19: in `struct { A string (tagged json:"X"); X uint8 }` the
properties have one entry for two included fields. -/
theorem getJSONSchemaFromType_duplicate_names_witness :
    ∃ props, (JSONSchemaDescriptor.mk "object" none 0 0
        (some [("X", some (.mk "integer" none 0 255 none))])).Properties = some props ∧
      props.length = 1 ∧
      props.length ≤ (([⟨"A", "X", .mk .String []⟩, ⟨"X", "", .mk .Uint8 []⟩] :
        List (StructField GoType)).filter (included latin1Tables)).length := by
  obtain ⟨props, hp, _, hlen, _⟩ := (getJSONSchemaFromType_duplicate_names latin1Tables
    [⟨"A", "X", .mk .String []⟩, ⟨"X", "", .mk .Uint8 []⟩]
    (.mk "object" none 0 0 (some [("X", some (.mk "integer" none 0 255 none))])) rfl).1
  have hp' : props = [("X", some (.mk "integer" none 0 255 none))] := by
    have : some [("X", some (JSONSchemaDescriptor.mk "integer" none 0 255 none))]
        = some props := hp
    injection this with this
    exact this.symm
  subst hp'
  exact ⟨_, rfl, rfl, hlen⟩

/-- Claim C20: whatever its json tag, a field with a non-empty declared
identifier has a non-empty serialized name, whose first rune can be read; and
on a type whose declared field identifiers are all non-empty
`getJSONSchemaFromType` does not panic: it returns a descriptor or an error. -/
theorem getJSONSchemaFromType_index_in_range (U : UnicodeTables) (st : GoType)
    (hn : st.namesNonEmpty = true) :
    (∀ (name tag : String) (t : GoType), name ≠ "" →
      fieldName ⟨name, tag, t⟩ ≠ "" ∧ ∃ r, firstRune (fieldName ⟨name, tag, t⟩) = some r) ∧
    getJSONSchemaFromType U st ≠ .panic ∧
    ((∃ d, getJSONSchemaFromType U st = .ok d) ∨
      ∃ e, getJSONSchemaFromType U st = .err e) := by
  have hnp := getJSONSchemaFromType_no_panic U st hn
  refine ⟨?_, hnp, ?_⟩
  · intro name tag t hname
    have hne : fieldName (StructField.mk name tag t) ≠ "" :=
      fieldName_ne_empty (StructField.mk name tag t) hname
    exact ⟨hne, firstRune_of_ne_empty _ hne⟩
  · cases hd : getJSONSchemaFromType U st with
    | ok d => exact Or.inl ⟨d, rfl⟩
    | err e => exact Or.inr ⟨e, rfl⟩
    | panic => exact absurd hd hnp

/-- Witness for C20: the declared identifiers of the nested type of the test
are non-empty and mapping it does not panic. -/
theorem getJSONSchemaFromType_index_in_range_witness :
    NestingStructure.namesNonEmpty = true ∧
    getJSONSchemaFromType latin1Tables NestingStructure ≠ .panic :=
  ⟨by decide, (getJSONSchemaFromType_index_in_range latin1Tables NestingStructure
    (by decide)).2.1⟩

/-! ## The serialized document -/

/-- Claim C17: the document built by `New("myTitle", "2.2.2")`,
`AddJSONEndpoint("GET", "/foo", nil)` and `AddResponse(200, schema)`, where
`schema` is the descriptor of `struct { Foo string; Bar uint8 }`, is written
by `json.Marshal` with "openapi" "3.0.0", an info object with the title and
the version, and under paths, "/foo", "get", responses, "200", content,
"application/json", schema the object with type "object" and the properties
"Bar" (type "integer", maximum 255, no minimum) and "Foo" (type "string"). -/
theorem marshal_test_document (U : UnicodeTables) :
    ∃ schema m₁ endpoint m₂,
      getJSONSchemaFromType U SimpleStructure = .ok schema ∧
      AddJSONEndpoint U (New "myTitle" "2.2.2") "GET" "/foo" none = some (m₁, endpoint) ∧
      AddResponse m₁ endpoint 200 (some schema) = some m₂ ∧
      m₂.deref.marshal = .object [
        ("openapi", .string "3.0.0"),
        ("info", .object [("title", .string "myTitle"), ("version", .string "2.2.2")]),
        ("paths", .object [
          ("/foo", .object [
            ("get", .object [
              ("description", .string ""),
              ("responses", .object [
                ("200", .object [
                  ("description", .string ""),
                  ("content", .object [
                    ("application/json", .object [
                      ("schema", .object [
                        ("type", .string "object"),
                        ("properties", .object [
                          ("Bar", .object [("type", .string "integer"),
                            ("maximum", .number 255)]),
                          ("Foo", .object [("type", .string "string")])])])])])])])])])])] :=
  ⟨_, _, _, _, rfl, rfl, rfl, rfl⟩

end OpenAP
